import Mathlib

/-!
Verification of the walmarket oracle trust subsystem.

The Python sources under `src/contracts/oracle/` are shallowly embedded here:

* strings (`str`) are lists of Unicode code points (`List Nat`);
* byte strings (`bytes`) are lists of naturals below 256;
* `Dict[str, Any]` / JSON-representable values are the inductive `Json`
  (numbers are modelled as integers; IEEE floats are outside the embedding);
* `hashlib.sha256` is implemented bit-faithfully on the `Nat` model;
* `json.dumps` is implemented for the three configurations the code uses
  (`sort_keys=True` with default separators, `sort_keys=True` with compact
  separators, and `indent=2`), and `json.loads` is given as a recursive
  descent parser over the same grammar.

Functions keep the names of the Python methods they embed.
-/

namespace Walmarket

/-- Code points of a Lean string literal, used to transcribe the Python
string literals appearing in the sources. -/
def strOf (s : String) : List Nat := s.data.map Char.toNat

/-! ### Hexadecimal encoding (`bytes.hex` / `bytes.fromhex`) -/

/-- Lowercase hex digit for a value below 16, as produced by `bytes.hex()`. -/
def hexDigit (n : Nat) : Nat := if n < 10 then 48 + n else 87 + n

/-- Lowercase hex rendering of a byte string, as `bytes.hex()` /
`hashlib.sha256(...).hexdigest()` produce. -/
def hexOfBytes (bs : List Nat) : List Nat :=
  bs.flatMap (fun b => [hexDigit (b / 16), hexDigit (b % 16)])

/-- Value of one hex digit character, accepting both cases as
`bytes.fromhex` does; `none` on a non-hex character. -/
def hexVal (c : Nat) : Option Nat :=
  if 48 ≤ c ∧ c ≤ 57 then some (c - 48)
  else if 97 ≤ c ∧ c ≤ 102 then some (c - 87)
  else if 65 ≤ c ∧ c ≤ 70 then some (c - 55)
  else none

/-- Parse a hex string into bytes, as `bytes.fromhex` does: two digits per
byte, failing on a stray character or an odd digit count. -/
def bytesFromHex : List Nat → Option (List Nat)
  | [] => some []
  | [_] => none
  | c1 :: c2 :: rest => do
    let h ← hexVal c1
    let l ← hexVal c2
    let tail ← bytesFromHex rest
    pure ((16 * h + l) :: tail)

/-! ### UTF-8 (`str.encode("utf-8")` / `bytes.decode("utf-8")`) -/

/-- UTF-8 bytes of one code point (arithmetic form of the standard
encoding, as `str.encode` produces for scalar values). -/
def utf8Char (c : Nat) : List Nat :=
  if c < 0x80 then [c]
  else if c < 0x800 then [0xc0 + c / 64, 0x80 + c % 64]
  else if c < 0x10000 then [0xe0 + c / 4096, 0x80 + c / 64 % 64, 0x80 + c % 64]
  else [0xf0 + c / 262144, 0x80 + c / 4096 % 64, 0x80 + c / 64 % 64, 0x80 + c % 64]

/-- UTF-8 encoding of a string, modelling `str.encode("utf-8")`. -/
def utf8Encode (s : List Nat) : List Nat := s.flatMap utf8Char

/-- Is this byte a UTF-8 continuation byte? -/
def isCont (b : Nat) : Bool := 0x80 ≤ b && b < 0xc0

/-- Decode one UTF-8 sequence: the leading byte and the remaining
bytes, giving the code point and the rest, or `none` on a malformed
sequence. -/
def utf8DecodeChar (b : Nat) (rest : List Nat) : Option (Nat × List Nat) :=
  if b < 0x80 then some (b, rest)
  else if b < 0xc0 then none
  else if b < 0xe0 then
    match rest with
    | b2 :: rest2 =>
      if isCont b2 then some ((b - 0xc0) * 64 + (b2 - 0x80), rest2) else none
    | [] => none
  else if b < 0xf0 then
    match rest with
    | b2 :: b3 :: rest2 =>
      if isCont b2 && isCont b3 then
        some ((b - 0xe0) * 4096 + (b2 - 0x80) * 64 + (b3 - 0x80), rest2)
      else none
    | _ => none
  else if b < 0xf8 then
    match rest with
    | b2 :: b3 :: b4 :: rest2 =>
      if isCont b2 && isCont b3 && isCont b4 then
        some ((b - 0xf0) * 262144 + (b2 - 0x80) * 4096 + (b3 - 0x80) * 64 + (b4 - 0x80), rest2)
      else none
    | _ => none
  else none

/-- Fuelled UTF-8 decoding loop; each step consumes at least one byte,
so any fuel above the byte count suffices. -/
def utf8DecodeAux : Nat → List Nat → Option (List Nat)
  | 0, _ => none
  | _ + 1, [] => some []
  | fuel + 1, b :: rest =>
    match utf8DecodeChar b rest with
    | none => none
    | some (c, rest2) => (utf8DecodeAux fuel rest2).map (fun t => c :: t)

/-- UTF-8 decoding, modelling `bytes.decode("utf-8")`: `none` on a
malformed sequence. -/
def utf8Decode (bs : List Nat) : Option (List Nat) := utf8DecodeAux (bs.length + 1) bs

/-! ### SHA-256 (`hashlib.sha256`)

A direct implementation of FIPS 180-4 over `Nat`, with 32-bit words kept
below `2 ^ 32` by explicit masking. -/

/-- Truncation to a 32-bit word. -/
def w32 (n : Nat) : Nat := n % 4294967296

/-- Right rotation of a 32-bit word. -/
def rotr (n x : Nat) : Nat := w32 (x / 2 ^ n + x * 2 ^ (32 - n))

/-- Logical right shift of a 32-bit word. -/
def shr (n x : Nat) : Nat := x / 2 ^ n

/-- SHA-256 round constants. -/
def sha256K : List Nat :=
  [1116352408, 1899447441, 3049323471, 3921009573, 961987163, 1508970993,
   2453635748, 2870763221, 3624381080, 310598401, 607225278, 1426881987,
   1925078388, 2162078206, 2614888103, 3248222580, 3835390401, 4022224774,
   264347078, 604807628, 770255983, 1249150122, 1555081692, 1996064986,
   2554220882, 2821834349, 2952996808, 3210313671, 3336571891, 3584528711,
   113926993, 338241895, 666307205, 773529912, 1294757372, 1396182291,
   1695183700, 1986661051, 2177026350, 2456956037, 2730485921, 2820302411,
   3259730800, 3345764771, 3516065817, 3600352804, 4094571909, 275423344,
   430227734, 506948616, 659060556, 883997877, 958139571, 1322822218,
   1537002063, 1747873779, 1955562222, 2024104815, 2227730452, 2361852424,
   2428436474, 2756734187, 3204031479, 3329325298]

/-- SHA-256 padding: append `0x80`, zero bytes to 56 mod 64, then the
bit length as eight big-endian bytes. -/
def sha256Pad (msg : List Nat) : List Nat :=
  let len := msg.length
  let zeros := (119 - len % 64) % 64
  let bitLen := 8 * len
  msg ++ [0x80] ++ List.replicate zeros 0 ++
    [bitLen / 2 ^ 56 % 256, bitLen / 2 ^ 48 % 256, bitLen / 2 ^ 40 % 256, bitLen / 2 ^ 32 % 256,
     bitLen / 2 ^ 24 % 256, bitLen / 2 ^ 16 % 256, bitLen / 2 ^ 8 % 256, bitLen % 256]

/-- Group bytes into big-endian 32-bit words. -/
def toWords : List Nat → List Nat
  | b1 :: b2 :: b3 :: b4 :: rest =>
    (b1 * 16777216 + b2 * 65536 + b3 * 256 + b4) :: toWords rest
  | _ => []

/-- Group a word list into 16-word blocks. -/
def toBlocks : List Nat → List (List Nat)
  | w1 :: w2 :: w3 :: w4 :: w5 :: w6 :: w7 :: w8 ::
    w9 :: w10 :: w11 :: w12 :: w13 :: w14 :: w15 :: w16 :: rest =>
    [w1, w2, w3, w4, w5, w6, w7, w8, w9, w10, w11, w12, w13, w14, w15, w16] :: toBlocks rest
  | _ => []

/-- Message-schedule extension step, on the reversed schedule. -/
def schedStep (acc : List Nat) : List Nat :=
  let g := fun i => acc.getD i 0
  let s0 := fun x => (rotr 7 x) ^^^ (rotr 18 x) ^^^ (shr 3 x)
  let s1 := fun x => (rotr 17 x) ^^^ (rotr 19 x) ^^^ (shr 10 x)
  w32 (s1 (g 1) + g 6 + s0 (g 14) + g 15) :: acc

/-- Full 64-word message schedule of a 16-word block. -/
def schedule (block : List Nat) : List Nat :=
  (Nat.rec block.reverse (fun _ acc => schedStep acc) 48 : List Nat).reverse

/-- SHA-256 working state. -/
structure Sha256State where
  a : Nat
  b : Nat
  c : Nat
  d : Nat
  e : Nat
  f : Nat
  g : Nat
  h : Nat

/-- One SHA-256 compression round. -/
def sha256Round (st : Sha256State) (kw : Nat × Nat) : Sha256State :=
  let S1 := (rotr 6 st.e) ^^^ (rotr 11 st.e) ^^^ (rotr 25 st.e)
  let ch := (st.e &&& st.f) ^^^ ((2 ^ 32 - 1 - st.e) &&& st.g)
  let t1 := w32 (st.h + S1 + ch + kw.1 + kw.2)
  let S0 := (rotr 2 st.a) ^^^ (rotr 13 st.a) ^^^ (rotr 22 st.a)
  let maj := (st.a &&& st.b) ^^^ (st.a &&& st.c) ^^^ (st.b &&& st.c)
  let t2 := w32 (S0 + maj)
  ⟨w32 (t1 + t2), st.a, st.b, st.c, w32 (st.d + t1), st.e, st.f, st.g⟩

/-- Process one block, updating the eight hash words. -/
def sha256Block (hs : List Nat) (block : List Nat) : List Nat :=
  let ws := schedule block
  let init : Sha256State :=
    ⟨hs.getD 0 0, hs.getD 1 0, hs.getD 2 0, hs.getD 3 0,
     hs.getD 4 0, hs.getD 5 0, hs.getD 6 0, hs.getD 7 0⟩
  let fin := (sha256K.zip ws).foldl sha256Round init
  [w32 (hs.getD 0 0 + fin.a), w32 (hs.getD 1 0 + fin.b), w32 (hs.getD 2 0 + fin.c),
   w32 (hs.getD 3 0 + fin.d), w32 (hs.getD 4 0 + fin.e), w32 (hs.getD 5 0 + fin.f),
   w32 (hs.getD 6 0 + fin.g), w32 (hs.getD 7 0 + fin.h)]

/-- SHA-256 digest of a byte string, as 32 bytes
(`hashlib.sha256(msg).digest()`). -/
def sha256 (msg : List Nat) : List Nat :=
  let init := [1779033703, 3144134277, 1013904242, 2773480762,
               1359893119, 2600822924, 528734635, 1541459225]
  let final := (toBlocks (toWords (sha256Pad msg))).foldl sha256Block init
  final.flatMap (fun x => [x / 2 ^ 24 % 256, x / 2 ^ 16 % 256, x / 2 ^ 8 % 256, x % 256])

/-- Lowercase hex digest (`hashlib.sha256(msg).hexdigest()`). -/
def sha256Hex (msg : List Nat) : List Nat := hexOfBytes (sha256 msg)

/-! ### JSON-representable values

The `Dict[str, Any]` payloads the oracle passes around. Numbers are
modelled as integers (the embedding does not cover IEEE floats); mappings
are association lists of code-point keys, mirroring insertion-ordered
Python dicts. -/

inductive Json where
  | null
  | bool (b : Bool)
  | num (n : Int)
  | str (s : List Nat)
  | arr (xs : List Json)
  | obj (kvs : List (List Nat × Json))

/-- Decimal digits of a natural number, fuel-recursive so that it reduces
in the kernel; `natDecAux (n + 1) n` is `str(n)`. -/
def natDecAux : Nat → Nat → List Nat
  | 0, _ => []
  | fuel + 1, n => if n < 10 then [48 + n] else natDecAux fuel (n / 10) ++ [48 + n % 10]

/-- Decimal rendering of a natural number, as Python `str`. -/
def natDec (n : Nat) : List Nat := natDecAux (n + 1) n

/-- Decimal rendering of an integer, as Python `str` / `json.dumps`. -/
def intDec : Int → List Nat
  | .ofNat n => natDec n
  | .negSucc n => 45 :: natDec (n + 1)

/-- Four lowercase hex digits, as in a JSON `\uXXXX` escape. -/
def hexDigit4 (n : Nat) : List Nat :=
  [hexDigit (n / 4096 % 16), hexDigit (n / 256 % 16), hexDigit (n / 16 % 16), hexDigit (n % 16)]

/-- Escape of one character inside a JSON string, following
`json.dumps` with its default `ensure_ascii=True`: the two-character
escapes for quote, backslash and the five control shorthands, `\u00XX`
for other control characters, printable ASCII verbatim, `\uXXXX` for
other characters of the Basic Multilingual Plane, and a surrogate pair
of escapes beyond it. -/
def escapeChar (c : Nat) : List Nat :=
  if c = 34 then [92, 34]
  else if c = 92 then [92, 92]
  else if c = 8 then [92, 98]
  else if c = 12 then [92, 102]
  else if c = 10 then [92, 110]
  else if c = 13 then [92, 114]
  else if c = 9 then [92, 116]
  else if c < 32 then 92 :: 117 :: hexDigit4 c
  else if c < 127 then [c]
  else if c < 65536 then 92 :: 117 :: hexDigit4 c
  else
    92 :: 117 :: hexDigit4 (55296 + (c - 65536) / 1024) ++
      (92 :: 117 :: hexDigit4 (56320 + (c - 65536) % 1024))

/-- JSON string literal for a code-point string: quotes around the
escaped characters. -/
def escapeString (s : List Nat) : List Nat :=
  34 :: s.flatMap escapeChar ++ [34]

/-- Strict lexicographic comparison of code-point strings, the order
Python uses to compare `str` keys. -/
def keyLtB : List Nat → List Nat → Bool
  | [], [] => false
  | [], _ :: _ => true
  | _ :: _, [] => false
  | a :: as, b :: bs => a < b || (a = b && keyLtB as bs)

/-- Reflexive closure of `keyLtB`. -/
def keyLeB (a b : List Nat) : Bool := keyLtB a b || a = b

/-- Order on keyed pairs by key, as `sorted(dict.items())` compares
entries of a dict (keys are unique, so the value tiebreak of tuple
comparison is never consulted). -/
def kvLe {α : Type} (p q : List Nat × α) : Prop := keyLeB p.1 q.1 = true

instance {α : Type} : @DecidableRel (List Nat × α) kvLe := fun p q => by
  unfold kvLe; infer_instance

/-- Sort keyed pairs by key, modelling `sorted(d.items())` as performed
by `json.dumps(..., sort_keys=True)`. Insertion sort is stable, like
Python's sort, so rendered entries may be sorted after rendering. -/
def sortPairs {α : Type} (kvs : List (List Nat × α)) : List (List Nat × α) :=
  List.insertionSort kvLe kvs

/-- Join serialized items with a separator (`sep.join(...)`). -/
def joinSep (sep : List Nat) : List (List Nat) → List Nat
  | [] => []
  | [p] => p
  | p :: p2 :: ps => p ++ (sep ++ joinSep sep (p2 :: ps))

mutual
/-- Serializer of `json.dumps(value, sort_keys=True)`, parameterized by
the item and key separators (`(', ', ': ')` by default, `(',', ':')` for
the compact form used by `hash_bundle`). Each mapping's entries are
rendered and then stably sorted by key, which agrees with sorting the
items first since the comparison reads only the key. -/
def serV (isep ksep : List Nat) : Json → List Nat
  | .null => strOf "null"
  | .bool true => strOf "true"
  | .bool false => strOf "false"
  | .num n => intDec n
  | .str s => escapeString s
  | .arr xs => 91 :: (joinSep isep (serVList isep ksep xs) ++ [93])
  | .obj kvs =>
    123 :: (joinSep isep ((sortPairs (serVEntries isep ksep kvs)).map Prod.snd) ++ [125])

/-- Serializations of the items of a JSON array. -/
def serVList (isep ksep : List Nat) : List Json → List (List Nat)
  | [] => []
  | x :: xs => serV isep ksep x :: serVList isep ksep xs

/-- Rendered `"key": value` entries of a JSON mapping, each carried
with its key for sorting. -/
def serVEntries (isep ksep : List Nat) :
    List (List Nat × Json) → List (List Nat × List Nat)
  | [] => []
  | kv :: kvs =>
    (kv.1, escapeString kv.1 ++ (ksep ++ serV isep ksep kv.2)) :: serVEntries isep ksep kvs
end

/-- Characters of `json.dumps(j, sort_keys=True)` with default
separators, as used by `hash_input` / `hash_output`. -/
def dumpsSorted (j : Json) : List Nat := serV (strOf ", ") (strOf ": ") j

/-- Characters of `json.dumps(j, sort_keys=True, separators=(',', ':'))`,
as used by `hash_bundle`. -/
def dumpsCompact (j : Json) : List Nat := serV (strOf ",") (strOf ":") j

/-- Embedding of `TEESignatureGenerator.hash_input`: SHA-256 of the
sorted-key JSON serialization, rendered `0x`-prefixed lowercase hex. -/
def hash_input (data : Json) : List Nat :=
  strOf "0x" ++ sha256Hex (utf8Encode (dumpsSorted data))

/-- Embedding of `TEESignatureGenerator.hash_output` (textually the same
computation as `hash_input`). -/
def hash_output (data : Json) : List Nat :=
  strOf "0x" ++ sha256Hex (utf8Encode (dumpsSorted data))

/-- Embedding of `WalrusUploader.hash_bundle`: SHA-256 of the compact
sorted-key JSON serialization, rendered `0x`-prefixed lowercase hex. -/
def hash_bundle (bundle : Json) : List Nat :=
  strOf "0x" ++ sha256Hex (utf8Encode (dumpsCompact bundle))

/-- Indentation of `2 * k` spaces, as `json.dumps(..., indent=2)` emits
at nesting depth `k`. -/
def ind2 (k : Nat) : List Nat := List.replicate (2 * k) 32

mutual
/-- Serializer of `json.dumps(value, indent=2)`: insertion order, item
separator a comma followed by a newline and indentation, key separator
a colon and a space; empty containers printed inline. The first
argument is the current nesting depth. -/
def serP (d : Nat) : Json → List Nat
  | .null => strOf "null"
  | .bool true => strOf "true"
  | .bool false => strOf "false"
  | .num n => intDec n
  | .str s => escapeString s
  | .arr [] => strOf "[]"
  | .arr (x :: xs) =>
    91 :: 10 :: (ind2 (d + 1) ++
      joinSep (44 :: 10 :: ind2 (d + 1)) (serPList (d + 1) (x :: xs)) ++
      (10 :: ind2 d ++ [93]))
  | .obj [] => strOf "\x7b\x7d"
  | .obj (kv :: kvs) =>
    123 :: 10 :: (ind2 (d + 1) ++
      joinSep (44 :: 10 :: ind2 (d + 1)) (serPEntries (d + 1) (kv :: kvs)) ++
      (10 :: ind2 d ++ [125]))

/-- Pretty-printed items of a JSON array at the given depth. -/
def serPList (d : Nat) : List Json → List (List Nat)
  | [] => []
  | x :: xs => serP d x :: serPList d xs

/-- Pretty-printed `"key": value` entries of a JSON mapping at the given
depth. -/
def serPEntries (d : Nat) : List (List Nat × Json) → List (List Nat)
  | [] => []
  | kv :: kvs => (escapeString kv.1 ++ (strOf ": " ++ serP d kv.2)) :: serPEntries d kvs
end

/-- Characters of `json.dumps(j, indent=2)`, the serialization
`SealEncryptor.encrypt_evidence` encrypts. -/
def dumpsIndent2 (j : Json) : List Nat := serP 0 j

/-! ### Well-formed evidence values

The domain of values a Python `Dict[str, Any]` built from JSON data can
take: mapping keys are unique at every level (Python dicts cannot hold a
key twice) and strings hold Unicode scalar values (lone surrogates make
`str.encode("utf-8")` and the `json` round trip misbehave and cannot
appear in data decoded from UTF-8 JSON). -/

/-- Is this code point a Unicode scalar value? -/
def scalarOK (c : Nat) : Bool := c < 1114112 && !(55296 ≤ c && c < 57344)

/-- Are the keys of an association list pairwise distinct, as the keys
of a Python dict are? -/
def nodupKeys {α : Type} : List (List Nat × α) → Bool
  | [] => true
  | kv :: kvs => !(kvs.any (fun kv2 => kv2.1 == kv.1)) && nodupKeys kvs

mutual
/-- Well-formedness of an evidence value (unique mapping keys, scalar
string contents). -/
def wfJ : Json → Bool
  | .null => true
  | .bool _ => true
  | .num _ => true
  | .str s => s.all scalarOK
  | .arr xs => wfL xs
  | .obj kvs => nodupKeys kvs && wfKV kvs

/-- Well-formedness of a list of evidence values. -/
def wfL : List Json → Bool
  | [] => true
  | x :: xs => wfJ x && wfL xs

/-- Well-formedness of the entries of a mapping: scalar keys and
well-formed values. -/
def wfKV : List (List Nat × Json) → Bool
  | [] => true
  | kv :: kvs => kv.1.all scalarOK && wfJ kv.2 && wfKV kvs
end

mutual
/-- Syntactic size of a value, used as parser fuel. -/
def jsize : Json → Nat
  | .null => 1
  | .bool _ => 1
  | .num _ => 1
  | .str _ => 1
  | .arr xs => 1 + jsizeL xs
  | .obj kvs => 1 + jsizeKV kvs

/-- Size of a list of values. -/
def jsizeL : List Json → Nat
  | [] => 0
  | x :: xs => 1 + jsize x + jsizeL xs

/-- Size of the entries of a mapping. -/
def jsizeKV : List (List Nat × Json) → Nat
  | [] => 0
  | kv :: kvs => 1 + jsize kv.2 + jsizeKV kvs
end

mutual
/-- Recursive key-sorted normal form: two values have the same
`jsonCanon` image exactly when one arises from the other by permuting
mapping entries at any nesting depths. -/
def jsonCanon : Json → Json
  | .null => .null
  | .bool b => .bool b
  | .num n => .num n
  | .str s => .str s
  | .arr xs => .arr (jsonCanonL xs)
  | .obj kvs => .obj (sortPairs (jsonCanonKV kvs))

/-- Canonical forms of the items of an array. -/
def jsonCanonL : List Json → List Json
  | [] => []
  | x :: xs => jsonCanon x :: jsonCanonL xs

/-- Canonical forms of the entries of a mapping (order preserved; the
sort happens in `jsonCanon`). -/
def jsonCanonKV : List (List Nat × Json) → List (List Nat × Json)
  | [] => []
  | kv :: kvs => (kv.1, jsonCanon kv.2) :: jsonCanonKV kvs
end

/-! ### JSON parsing (`json.loads`)

Modelled from the spec: the Python standard library's `json.loads`
(outside `src/`) parses the textual JSON grammar; the spec relies on it
only through the round trip `decrypt(encrypt(E, c, p), c, p, valid_keys)
== E` for JSON-representable `E`. The parser below is a recursive
descent over the same grammar `json.dumps` emits, restricted like the
whole embedding to integer numerals. Recursion is fuelled; any fuel of
at least `jsize` of the parsed value suffices. -/

/-- Whitespace characters the JSON grammar skips. -/
def isWsChar (c : Nat) : Bool := c == 32 || c == 9 || c == 10 || c == 13

/-- Drop leading JSON whitespace. -/
def skipWs : List Nat → List Nat
  | [] => []
  | c :: rest => if isWsChar c then skipWs rest else c :: rest

/-- Is this an ASCII decimal digit? -/
def digitB (c : Nat) : Bool := 48 ≤ c && c ≤ 57

/-- Split off the leading run of decimal digits. -/
def takeDigits : List Nat → (List Nat × List Nat)
  | [] => ([], [])
  | c :: rest =>
    if digitB c then
      let p := takeDigits rest
      (c :: p.1, p.2)
    else ([], c :: rest)

/-- Numeric value of a digit run. -/
def digitsVal (ds : List Nat) : Nat := ds.foldl (fun a c => 10 * a + (c - 48)) 0

/-- Parse a nonempty run of digits into a natural number. -/
def parseNat (s : List Nat) : Option (Nat × List Nat) :=
  match takeDigits s with
  | ([], _) => none
  | (ds, r) => some (digitsVal ds, r)

/-- The character a shorthand escape `\e` denotes, `none` on an
unrecognized escape letter. -/
def charOfEscape (e : Nat) : Option Nat :=
  if e = 34 then some 34
  else if e = 92 then some 92
  else if e = 47 then some 47
  else if e = 98 then some 8
  else if e = 102 then some 12
  else if e = 110 then some 10
  else if e = 114 then some 13
  else if e = 116 then some 9
  else none

/-- Value of a four-hex-digit group in a `\uXXXX` escape. -/
def hex4Val (h1 h2 h3 h4 : Nat) : Option Nat :=
  match hexVal h1, hexVal h2, hexVal h3, hexVal h4 with
  | some v1, some v2, some v3, some v4 => some (4096 * v1 + 256 * v2 + 16 * v3 + v4)
  | _, _, _, _ => none

/-- Parse the remaining characters of a JSON string literal (the opening
quote already consumed), undoing `escapeChar`: the shorthand escapes,
`\uXXXX` escapes with surrogate-pair recombination as `json.loads`
performs it, and literal characters; raw control characters are
rejected as in the default strict mode. One divergence from the stdlib,
irrelevant to data that round-trips through UTF-8: an unpaired
surrogate escape is rejected here, where `json.loads` would produce a
lone surrogate that `str.encode("utf-8")` then refuses. Recursion is
fuelled so that the definition unfolds structurally; any fuel above the
input length suffices, and the callers pass the input length plus
one. -/
def parseStrChars : Nat → List Nat → Option (List Nat × List Nat)
  | 0, _ => none
  | _ + 1, [] => none
  | fuel + 1, c :: rest =>
    if c = 34 then some ([], rest)
    else if c = 92 then
      match rest with
      | 117 :: h1 :: h2 :: h3 :: h4 :: rest1 =>
        match hex4Val h1 h2 h3 h4 with
        | none => none
        | some v =>
          if 55296 ≤ v ∧ v < 56320 then
            match rest1 with
            | 92 :: 117 :: g1 :: g2 :: g3 :: g4 :: rest2 =>
              match hex4Val g1 g2 g3 g4 with
              | none => none
              | some w =>
                if 56320 ≤ w ∧ w < 57344 then
                  match parseStrChars fuel rest2 with
                  | none => none
                  | some p => some ((65536 + 1024 * (v - 55296) + (w - 56320)) :: p.1, p.2)
                else none
            | _ => none
          else if 56320 ≤ v ∧ v < 57344 then none
          else
            match parseStrChars fuel rest1 with
            | none => none
            | some p => some (v :: p.1, p.2)
      | e :: rest1 =>
        match charOfEscape e with
        | none => none
        | some ch =>
          match parseStrChars fuel rest1 with
          | none => none
          | some p => some (ch :: p.1, p.2)
      | [] => none
    else if c < 32 then none
    else
      match parseStrChars fuel rest with
      | none => none
      | some p => some (c :: p.1, p.2)

mutual
/-- Parse one JSON value; the first argument is recursion fuel. -/
def parseV : Nat → List Nat → Option (Json × List Nat)
  | 0, _ => none
  | fuel + 1, s =>
    match skipWs s with
    | [] => none
    | c :: rest =>
      if c = 110 then
        match rest with
        | 117 :: 108 :: 108 :: r => some (.null, r)
        | _ => none
      else if c = 116 then
        match rest with
        | 114 :: 117 :: 101 :: r => some (.bool true, r)
        | _ => none
      else if c = 102 then
        match rest with
        | 97 :: 108 :: 115 :: 101 :: r => some (.bool false, r)
        | _ => none
      else if c = 34 then
        match parseStrChars (rest.length + 1) rest with
        | some p => some (.str p.1, p.2)
        | none => none
      else if c = 91 then
        match skipWs rest with
        | [] => none
        | c2 :: rest2 =>
          if c2 = 93 then some (.arr [], rest2)
          else
            match parseItems fuel rest with
            | some p => some (.arr p.1, p.2)
            | none => none
      else if c = 123 then
        match skipWs rest with
        | [] => none
        | c2 :: rest2 =>
          if c2 = 125 then some (.obj [], rest2)
          else
            match parseMembers fuel rest with
            | some p => some (.obj p.1, p.2)
            | none => none
      else if c = 45 then
        match parseNat rest with
        | some p => some (.num (-(p.1 : Int)), p.2)
        | none => none
      else if digitB c then
        match parseNat (c :: rest) with
        | some p => some (.num (p.1 : Int), p.2)
        | none => none
      else none

/-- Parse the items of a nonempty JSON array, up to and including the
closing bracket. -/
def parseItems : Nat → List Nat → Option (List Json × List Nat)
  | 0, _ => none
  | fuel + 1, s =>
    match parseV fuel s with
    | none => none
    | some (v, r) =>
      match skipWs r with
      | 44 :: r2 =>
        match parseItems fuel r2 with
        | some p => some (v :: p.1, p.2)
        | none => none
      | 93 :: r2 => some ([v], r2)
      | _ => none

/-- Parse the members of a nonempty JSON object, up to and including the
closing brace. -/
def parseMembers : Nat → List Nat → Option (List (List Nat × Json) × List Nat)
  | 0, _ => none
  | fuel + 1, s =>
    match skipWs s with
    | 34 :: rest =>
      match parseStrChars (rest.length + 1) rest with
      | none => none
      | some (k, r1) =>
        match skipWs r1 with
        | 58 :: r2 =>
          match parseV fuel r2 with
          | none => none
          | some (v, r3) =>
            match skipWs r3 with
            | 44 :: r4 =>
              match parseMembers fuel r4 with
              | some p => some ((k, v) :: p.1, p.2)
              | none => none
            | 125 :: r4 => some ([(k, v)], r4)
            | _ => none
        | _ => none
    | _ => none
end

/-- Embedding of `json.loads`: parse one value and require only
whitespace to follow, as the stdlib decoder does. -/
def json_loads (s : List Nat) : Option Json :=
  match parseV (s.length + 1) s with
  | some (j, rest) => if skipWs rest = [] then some j else none
  | none => none

/-! ### TEE signature generator (`signature_generator.py`) -/

/-- Modelled from the spec: the asymmetric signature primitive itself is
supplied by the external `cryptography` library (ECDSA over SECP256R1),
which is not part of this repository. Following the spec's signer
capability contract (sign produces a signature over the pre-hashed
digest; verification succeeds exactly for a signature made over that
digest with the matching key; the key is abstract), a key pair is one
abstract natural number and a signature binds the key and the digest
bytes injectively. -/
def ecdsaSign (privKey : Nat) (digest : List Nat) : List Nat :=
  natDec privKey ++ digest

/-- Modelled from the spec: verification of the external library's
signature primitive, true exactly on the signature `ecdsaSign` produces
for this digest under the matching key. -/
def ecdsaVerify (pubKey : Nat) (digest sigBytes : List Nat) : Bool :=
  sigBytes == natDec pubKey ++ digest

/-- Embedding of `TEESignatureGenerator.create_report_digest`: the eight
stringified fields joined with the `||` delimiter, UTF-8 encoded and
hashed to 32 digest bytes. The two identity fields come from the
generator (`self.enclave_id`, `self.mrenclave`) and are passed first. -/
def create_report_digest (enclave_id mrenclave : List Nat)
    (h_in h_out blob_id blob_hash : List Nat) (timestamp : Nat) (nonce : List Nat) :
    List Nat :=
  sha256 (utf8Encode (joinSep (strOf "||")
    [h_in, h_out, blob_id, blob_hash, natDec timestamp, nonce, enclave_id, mrenclave]))

/-- Embedding of `TEESignatureGenerator.sign_report`: sign the digest
with the enclave private key and render the signature as `0x`-prefixed
hex. -/
def sign_report (privKey : Nat) (report_digest : List Nat) : List Nat :=
  strOf "0x" ++ hexOfBytes (ecdsaSign privKey report_digest)

/-- Embedding of `TEESignatureGenerator.verify_signature`: drop the two
prefix characters, decode the hex (`bytes.fromhex`), and check the
signature; every failure, either of decoding or of verification, is
caught and returned as `false` (the method's `try`/`except` swallows
all exceptions), so the embedding is a total function into `Bool`. -/
def verify_signature (pubKey : Nat) (report_digest : List Nat) (signature : List Nat) :
    Bool :=
  match bytesFromHex (signature.drop 2) with
  | none => false
  | some sigBytes => ecdsaVerify pubKey report_digest sigBytes

/-- Embedding of `TEESignatureGenerator.generate_attestation`: the
simulated attestation structure, serialized with sorted keys and
hashed; the random `mrsigner` and the captured time are effects passed
as arguments. -/
def generate_attestation (enclave_id mrenclave mrsigner : List Nat)
    (attTimestamp : Nat) (report_digest : List Nat) : List Nat :=
  strOf "0x" ++ sha256Hex (utf8Encode (dumpsSorted (.obj
    [(strOf "version", .num 4),
     (strOf "sign_type", .num 1),
     (strOf "enclave_id", .str enclave_id),
     (strOf "mrenclave", .str mrenclave),
     (strOf "mrsigner", .str mrsigner),
     (strOf "report_data", .str (hexOfBytes report_digest)),
     (strOf "timestamp", .num attTimestamp),
     (strOf "status", .str (strOf "OK"))])))

/-- The TEE proof dictionary assembled by `create_tee_proof`. -/
structure TeeProof where
  enclave_id : List Nat
  enclave_pubkey : List Nat
  mrenclave : List Nat
  sig : List Nat
  attestation : List Nat
  timestamp : Nat
  nonce : List Nat
  h_in : List Nat
  h_out : List Nat
  blob_id : List Nat
  blob_hash : List Nat

/-- Embedding of `TEESignatureGenerator.create_tee_proof`. The effects
the method performs (`int(time.time())`, `self.generate_nonce()`, and
the attestation's random `mrsigner` and second time capture) enter as
the `timestamp`, `nonce`, `mrsigner` and `attTimestamp` arguments;
everything else follows the source: hash input and output, build the
report digest, sign it, generate the attestation, and assemble the
eleven-field proof. -/
def create_tee_proof (enclave_id enclave_pubkey mrenclave : List Nat) (privKey : Nat)
    (inference_input inference_output : Json) (blob_id blob_hash : List Nat)
    (timestamp : Nat) (nonce : List Nat) (mrsigner : List Nat) (attTimestamp : Nat) :
    TeeProof :=
  let h_in := hash_input inference_input
  let h_out := hash_output inference_output
  let report_digest :=
    create_report_digest enclave_id mrenclave h_in h_out blob_id blob_hash timestamp nonce
  let signature := sign_report privKey report_digest
  let attestation := generate_attestation enclave_id mrenclave mrsigner attTimestamp report_digest
  ⟨enclave_id, enclave_pubkey, mrenclave, signature, attestation,
   timestamp, nonce, h_in, h_out, blob_id, blob_hash⟩

/-! ### Walrus uploader (`walrus_uploader.py`) -/

/-- Lookup in an association-list mapping, modelling `dict.get` with a
default. -/
def dictGet (kvs : List (List Nat × Json)) (k : List Nat) (dflt : Json) : Json :=
  match kvs.find? (fun kv => kv.1 == k) with
  | some kv => kv.2
  | none => dflt

/-- Does the mapping carry this key (`k in d`)? -/
def hasKey (kvs : List (List Nat × Json)) (k : List Nat) : Bool :=
  kvs.any (fun kv => kv.1 == k)

/-- Embedding of `WalrusUploader.create_evidence_bundle`: the
five-field bundle with fixed version `"1.0"`, the timestamp defaulted
from `metadata.get("timestamp", 0)`, and the three arguments embedded
unchanged. -/
def create_evidence_bundle (inference_input inference_output : Json)
    (metadata : List (List Nat × Json)) : Json :=
  .obj [(strOf "version", .str (strOf "1.0")),
        (strOf "timestamp", dictGet metadata (strOf "timestamp") (.num 0)),
        (strOf "input", inference_input),
        (strOf "output", inference_output),
        (strOf "metadata", .obj metadata)]

/-! ### Inference output validation (`openai_inference.py`) -/

/-- Does the list start with the given pattern (`bytes.startswith`)? -/
def startsWithL : List Nat → List Nat → Bool
  | [], _ => true
  | _ :: _, [] => false
  | p :: ps, b :: bs => p == b && startsWithL ps bs

/-- Python `needle in hay` on strings: contiguous substring membership. -/
def isSubstr (needle : List Nat) : List Nat → Bool
  | [] => needle.isEmpty
  | c :: t => startsWithL needle (c :: t) || isSubstr needle t

/-- Embedding of `GPT5Inference.validate_output`. The source operates on
a `Dict[str, Any]`; `none` models the `TypeError` Python raises when
the checks run into a value of the wrong shape. When
`output["resolution"]` is a string or a list, `in` is a membership test
that cannot raise: a missing `value` or `confidence` member returns
`False`, while if both are present the subsequent string-keyed indexing
`resolution["confidence"]` raises `TypeError` (`none`); on other
non-mapping resolutions `in` itself raises. A non-numeric confidence
raises under `<=`; Python `bool` is an `int`, so boolean confidence and
value participate in the numeric comparisons. Otherwise the result is
the method's boolean: required keys present, `value` and `confidence`
present, confidence within `[0, 1]`, value in `[0, 1]` by equality. -/
def validate_output (output : Json) : Option Bool :=
  match output with
  | .obj kvs =>
    if !(hasKey kvs (strOf "resolution")) then some false
    else if !(hasKey kvs (strOf "sources")) then some false
    else if !(hasKey kvs (strOf "rationale")) then some false
    else
      match dictGet kvs (strOf "resolution") .null with
      | .obj rkvs =>
        if !(hasKey rkvs (strOf "value")) || !(hasKey rkvs (strOf "confidence")) then
          some false
        else
          let confOk : Option Bool :=
            match dictGet rkvs (strOf "confidence") .null with
            | .num c => some (decide (0 ≤ c ∧ c ≤ 1))
            | .bool _ => some true
            | _ => none
          match confOk with
          | none => none
          | some false => some false
          | some true =>
            match dictGet rkvs (strOf "value") .null with
            | .num v => some (decide (v = 0 ∨ v = 1))
            | .bool _ => some true
            | _ => some false
      | .str s =>
        if !(isSubstr (strOf "value") s) || !(isSubstr (strOf "confidence") s) then
          some false
        else none
      | .arr xs =>
        if !(xs.any (fun x => match x with | .str c => c == strOf "value" | _ => false)) ||
           !(xs.any (fun x => match x with | .str c => c == strOf "confidence" | _ => false)) then
          some false
        else none
      | _ => none
  | _ => none

/-! ### Seal encryptor (`seal_encryptor.py`) -/

/-- Embedding of the `SealConfig` dataclass. -/
structure SealConfig where
  seal_package_id : List Nat
  seal_policy_id : List Nat
  threshold : Nat
  key_servers : List (List Nat)

/-- Embedding of the `EncryptedEvidence` dataclass. -/
structure EncryptedEvidence where
  encrypted_blob : List Nat
  public_summary : Json
  seal_policy_id : List Nat
  encryption_metadata : Json

/-- The error kinds `decrypt_evidence` can raise: the explicit
`ValueError("Invalid encrypted blob format")`, a `UnicodeDecodeError`
from `bytes.decode`, or a `json.JSONDecodeError`. The method has no
policy or key-material failure mode. -/
inductive DecryptError where
  | invalidFormat
  | unicodeError
  | jsonError
deriving DecidableEq

/-- XOR a byte stream against a cyclic key starting at offset `i`,
modelling the `encrypted[i] ^= key[i % len(key)]` loop. -/
def xorKeyAux (key : List Nat) : Nat → List Nat → List Nat
  | _, [] => []
  | i, b :: bs => (b ^^^ key.getD (i % key.length) 0) :: xorKeyAux key (i + 1) bs

/-- XOR a byte stream against a cyclic key. -/
def xorWithKey (key data : List Nat) : List Nat := xorKeyAux key 0 data

/-- The XOR key `sha256(f"{policy_id}:{market_id}".encode()).digest()`
both transform directions derive. -/
def sealKey (cfg : SealConfig) (market_id : List Nat) : List Nat :=
  sha256 (utf8Encode (cfg.seal_policy_id ++ (strOf ":" ++ market_id)))

/-- Embedding of `SealEncryptor._simulate_seal_encryption`: XOR with the
derived key and an added `SEAL_ENC_V1:` header. -/
def simulate_seal_encryption (cfg : SealConfig) (data : List Nat) (market_id : List Nat) :
    List Nat :=
  strOf "SEAL_ENC_V1:" ++ xorWithKey (sealKey cfg market_id) data

/-- Embedding of `SealEncryptor._create_public_summary`. The result is
`none` when the method raises: `full_evidence.get("tee_attestation",
{})` returns whatever non-default value the key holds, and calling
`.get` on it raises `AttributeError` unless it is a mapping. -/
def create_public_summary (full_evidence : Json) (market_id : List Nat) : Option Json :=
  match full_evidence with
  | .obj kvs =>
    match dictGet kvs (strOf "tee_attestation") (.obj []) with
    | .obj tkvs =>
      some (.obj
        [(strOf "market_id", .str market_id),
         (strOf "outcome", dictGet kvs (strOf "outcome") .null),
         (strOf "resolution_date", dictGet kvs (strOf "resolution_date") .null),
         (strOf "oracle_version", dictGet tkvs (strOf "version") (.str (strOf "1.0"))),
         (strOf "evidence_type", .str (strOf "public_summary")),
         (strOf "premium_available", .bool true),
         (strOf "message",
           .str (strOf "Full reasoning and sources available for premium subscribers"))])
    | _ => none
  | _ => none

/-- Keys of a mapping value (empty for non-mappings). -/
def objKeys : Json → List (List Nat)
  | .obj kvs => kvs.map Prod.fst
  | _ => []

/-- Embedding of `SealEncryptor.encrypt_evidence`: build the public
summary, serialize the evidence with `json.dumps(..., indent=2)`,
encrypt it, and record the metadata; `none` models the
`AttributeError` propagating out of `_create_public_summary`. -/
def encrypt_evidence (cfg : SealConfig) (full_evidence : Json) (market_id : List Nat) :
    Option EncryptedEvidence :=
  match create_public_summary full_evidence market_id with
  | none => none
  | some summary =>
    let evidence_bytes := utf8Encode (dumpsIndent2 full_evidence)
    let encrypted_blob := simulate_seal_encryption cfg evidence_bytes market_id
    some
      ⟨encrypted_blob, summary, cfg.seal_policy_id,
       .obj [(strOf "seal_package_id", .str cfg.seal_package_id),
             (strOf "seal_policy_id", .str cfg.seal_policy_id),
             (strOf "threshold", .num cfg.threshold),
             (strOf "key_servers", .arr (cfg.key_servers.map .str)),
             (strOf "encrypted_size_bytes", .num encrypted_blob.length),
             (strOf "original_size_bytes", .num evidence_bytes.length),
             (strOf "encryption_method", .str (strOf "Seal-Threshold-AES-GCM (simulated)")),
             (strOf "content_hash", .str (sha256Hex evidence_bytes))]⟩

/-- Embedding of `SealEncryptor.decrypt_evidence`: reject a blob whose
format tag is absent, strip the twelve header bytes, XOR with the
derived key, UTF-8 decode and JSON parse. The method takes no key
material and performs no policy or threshold check. -/
def decrypt_evidence (cfg : SealConfig) (encrypted_blob : List Nat) (market_id : List Nat) :
    Except DecryptError Json :=
  if startsWithL (strOf "SEAL_ENC_V1:") encrypted_blob then
    let decrypted := xorWithKey (sealKey cfg market_id) (encrypted_blob.drop 12)
    match utf8Decode decrypted with
    | none => .error .unicodeError
    | some chars =>
      match json_loads chars with
      | none => .error .jsonError
      | some evidence => .ok evidence
  else .error .invalidFormat

/-! ## Helper lemmas -/

set_option maxRecDepth 100000

/-- Value-to-digit round trip for one hex digit. -/
theorem hexVal_hexDigit (n : Nat) (h : n < 16) : hexVal (hexDigit n) = some n := by
  unfold hexVal hexDigit
  by_cases h10 : n < 10
  · rw [if_pos h10, if_pos (by omega : 48 ≤ 48 + n ∧ 48 + n ≤ 57)]
    congr 1
    omega
  · rw [if_neg h10, if_neg (by omega : ¬ (48 ≤ 87 + n ∧ 87 + n ≤ 57)),
      if_pos (by omega : 97 ≤ 87 + n ∧ 87 + n ≤ 102)]
    congr 1
    omega

/-- Hex encoding of a byte string decodes back to it. -/
theorem bytesFromHex_hexOfBytes (bs : List Nat) (h : ∀ b ∈ bs, b < 256) :
    bytesFromHex (hexOfBytes bs) = some bs := by
  induction bs with
  | nil => rfl
  | cons b bs ih =>
    have hb : b < 256 := h b (by simp)
    have hrest : ∀ x ∈ bs, x < 256 := fun x hx => h x (by simp [hx])
    have h1 : b / 16 < 16 := by omega
    have h2 : b % 16 < 16 := by omega
    have hsplit : hexOfBytes (b :: bs) = hexDigit (b / 16) :: hexDigit (b % 16) :: hexOfBytes bs := by
      simp [hexOfBytes]
    rw [hsplit]
    show (do
      let hh ← hexVal (hexDigit (b / 16))
      let l ← hexVal (hexDigit (b % 16))
      let tail ← bytesFromHex (hexOfBytes bs)
      pure ((16 * hh + l) :: tail)) = some (b :: bs)
    rw [hexVal_hexDigit _ h1, hexVal_hexDigit _ h2, ih hrest]
    show some ((16 * (b / 16) + b % 16) :: bs) = some (b :: bs)
    rw [Nat.div_add_mod b 16]

/-- Digits produced by `natDecAux` are decimal digit characters. -/
theorem natDecAux_digits (fuel : Nat) : ∀ n, ∀ c ∈ natDecAux fuel n, 48 ≤ c ∧ c ≤ 57 := by
  induction fuel with
  | zero => intro n c hc; simp [natDecAux] at hc
  | succ fuel ih =>
    intro n c hc
    unfold natDecAux at hc
    by_cases h10 : n < 10
    · rw [if_pos h10] at hc
      simp at hc
      omega
    · rw [if_neg h10] at hc
      rcases List.mem_append.mp hc with h1 | h1
      · exact ih _ c h1
      · simp at h1; omega

/-- SHA-256 digests consist of bytes. -/
theorem sha256_bytes_lt (msg : List Nat) : ∀ b ∈ sha256 msg, b < 256 := by
  intro b hb
  unfold sha256 at hb
  rcases List.mem_flatMap.mp hb with ⟨x, _, hx⟩
  simp at hx
  rcases hx with h | h | h | h <;> omega

/-- Signature byte strings produced by the modelled signer are bytes
whenever the digest is. -/
theorem ecdsaSign_bytes_lt (k : Nat) (d : List Nat) (hd : ∀ b ∈ d, b < 256) :
    ∀ b ∈ ecdsaSign k d, b < 256 := by
  intro b hb
  unfold ecdsaSign at hb
  rcases List.mem_append.mp hb with h | h
  · have := natDecAux_digits (k + 1) k b h
    omega
  · exact hd b h

/-- Verification of a freshly produced signature string succeeds. -/
theorem verify_sign_roundtrip (k : Nat) (d : List Nat) (hd : ∀ b ∈ d, b < 256) :
    verify_signature k d (sign_report k d) = true := by
  unfold verify_signature sign_report
  have hdrop : (strOf "0x" ++ hexOfBytes (ecdsaSign k d)).drop 2 = hexOfBytes (ecdsaSign k d) := rfl
  rw [hdrop, bytesFromHex_hexOfBytes _ (ecdsaSign_bytes_lt k d hd)]
  show ecdsaVerify k d (ecdsaSign k d) = true
  unfold ecdsaVerify ecdsaSign
  exact beq_self_eq_true _

/-! ### Order lemmas for the key comparison -/

/-- Key comparison is asymmetric. -/
theorem keyLtB_asymm : ∀ a b : List Nat, keyLtB a b = true → keyLtB b a = true → False
  | [], [], h1, _ => by simp [keyLtB] at h1
  | [], _ :: _, _, h2 => by simp [keyLtB] at h2
  | _ :: _, [], h1, _ => by simp [keyLtB] at h1
  | a :: as, b :: bs, h1, h2 => by
    simp only [keyLtB, Bool.or_eq_true, Bool.and_eq_true, decide_eq_true_eq] at h1 h2
    rcases h1 with h1 | ⟨he1, h1⟩
    · rcases h2 with h2 | ⟨he2, _⟩ <;> omega
    · rcases h2 with h2 | ⟨_, h2⟩
      · omega
      · exact keyLtB_asymm as bs h1 h2

/-- Key comparison is transitive. -/
theorem keyLtB_trans : ∀ a b c : List Nat,
    keyLtB a b = true → keyLtB b c = true → keyLtB a c = true
  | [], [], _, h1, _ => by simp [keyLtB] at h1
  | _ :: _, [], _, h1, _ => by simp [keyLtB] at h1
  | [], _ :: _, [], _, h2 => by simp [keyLtB] at h2
  | _ :: _, _ :: _, [], _, h2 => by simp [keyLtB] at h2
  | [], _ :: _, _ :: _, _, _ => by simp [keyLtB]
  | a :: as, b :: bs, c :: cs, h1, h2 => by
    simp only [keyLtB, Bool.or_eq_true, Bool.and_eq_true, decide_eq_true_eq] at h1 h2 ⊢
    rcases h1 with h1 | ⟨he1, h1⟩
    · rcases h2 with h2 | ⟨he2, _⟩
      · left; omega
      · left; omega
    · rcases h2 with h2 | ⟨he2, h2⟩
      · left; omega
      · exact Or.inr ⟨by omega, keyLtB_trans as bs cs h1 h2⟩

/-- Key comparison is trichotomous. -/
theorem keyLtB_tri : ∀ a b : List Nat, keyLtB a b = true ∨ a = b ∨ keyLtB b a = true
  | [], [] => Or.inr (Or.inl rfl)
  | [], _ :: _ => Or.inl (by simp [keyLtB])
  | _ :: _, [] => Or.inr (Or.inr (by simp [keyLtB]))
  | a :: as, b :: bs => by
    rcases Nat.lt_trichotomy a b with h | h | h
    · exact Or.inl (by simp [keyLtB]; omega)
    · rcases keyLtB_tri as bs with h2 | h2 | h2
      · exact Or.inl (by simp [keyLtB, h, h2])
      · exact Or.inr (Or.inl (by rw [h, h2]))
      · exact Or.inr (Or.inr (by simp [keyLtB, h, h2]))
    · exact Or.inr (Or.inr (by simp [keyLtB]; omega))

/-- Key order is total. -/
theorem keyLeB_total (a b : List Nat) : keyLeB a b = true ∨ keyLeB b a = true := by
  rcases keyLtB_tri a b with h | h | h
  · exact Or.inl (by simp [keyLeB, h])
  · exact Or.inl (by simp [keyLeB, h])
  · exact Or.inr (by simp [keyLeB, h])

/-- Key order is transitive. -/
theorem keyLeB_trans (a b c : List Nat) (h1 : keyLeB a b = true) (h2 : keyLeB b c = true) :
    keyLeB a c = true := by
  simp only [keyLeB, Bool.or_eq_true, decide_eq_true_eq] at h1 h2 ⊢
  rcases h1 with h1 | h1
  · rcases h2 with h2 | h2
    · exact Or.inl (keyLtB_trans a b c h1 h2)
    · exact Or.inl (h2 ▸ h1)
  · exact h1 ▸ h2

/-- The strict part of the entry order, used to show sorted entry lists
with distinct keys are unique. -/
def kvLt {α : Type} (p q : List Nat × α) : Prop := keyLtB p.1 q.1 = true

instance {α : Type} : IsTotal (List Nat × α) kvLe :=
  ⟨fun p q => keyLeB_total p.1 q.1⟩

instance {α : Type} : IsTrans (List Nat × α) kvLe :=
  ⟨fun _ _ _ h1 h2 => keyLeB_trans _ _ _ h1 h2⟩

instance {α : Type} : IsAntisymm (List Nat × α) kvLt :=
  ⟨fun _ _ h1 h2 => (keyLtB_asymm _ _ h1 h2).elim⟩

/-- The sorted entry list is sorted for the entry order. -/
theorem sortPairs_sorted {α : Type} (l : List (List Nat × α)) :
    List.Sorted kvLe (sortPairs l) :=
  List.sorted_insertionSort kvLe l

/-- Sorting permutes the entries. -/
theorem sortPairs_perm {α : Type} (l : List (List Nat × α)) : (sortPairs l).Perm l :=
  List.perm_insertionSort kvLe l

/-- A sorted entry list with pairwise distinct keys is strictly
sorted. -/
theorem sorted_kvLt_of_nodup {α : Type} {l : List (List Nat × α)}
    (hs : List.Sorted kvLe l) (hn : (l.map Prod.fst).Nodup) : List.Sorted kvLt l := by
  have hn' : l.Pairwise (fun p q => p.1 ≠ q.1) := List.pairwise_map.mp hn
  refine (hs.and hn').imp ?_
  rintro p q ⟨hle, hne⟩
  unfold kvLe at hle
  unfold kvLt
  simp only [keyLeB, Bool.or_eq_true, decide_eq_true_eq] at hle
  rcases hle with h | h
  · exact h
  · exact absurd h hne

/-- Sorting entry lists with distinct keys is permutation-invariant. -/
theorem sortPairs_eq_of_perm {α : Type} {l1 l2 : List (List Nat × α)}
    (hp : l1.Perm l2) (hn : (l1.map Prod.fst).Nodup) : sortPairs l1 = sortPairs l2 := by
  have hn1 : ((sortPairs l1).map Prod.fst).Nodup :=
    (((sortPairs_perm l1).map Prod.fst).nodup_iff).mpr hn
  have hn2 : ((sortPairs l2).map Prod.fst).Nodup :=
    (((sortPairs_perm l2).map Prod.fst).nodup_iff).mpr ((hp.map Prod.fst).nodup_iff.mp hn)
  exact List.eq_of_perm_of_sorted
    ((sortPairs_perm l1).trans (hp.trans (sortPairs_perm l2).symm))
    (sorted_kvLt_of_nodup (sortPairs_sorted l1) hn1)
    (sorted_kvLt_of_nodup (sortPairs_sorted l2) hn2)

/-- Sorting an already sorted entry list changes nothing. -/
theorem sortPairs_idem {α : Type} (l : List (List Nat × α)) :
    sortPairs (sortPairs l) = sortPairs l :=
  (sortPairs_sorted l).insertionSort_eq

/-- Sorting commutes with key-preserving transformations of the
entries. -/
theorem sortPairs_map {α β : Type} (f : (List Nat × α) → (List Nat × β))
    (hf : ∀ p, (f p).1 = p.1) (l : List (List Nat × α)) :
    sortPairs (l.map f) = (sortPairs l).map f := by
  refine (List.map_insertionSort kvLe kvLe f l ?_).symm
  intro a _ b _
  show kvLe a b ↔ kvLe (f a) (f b)
  unfold kvLe
  rw [hf, hf]

/-- The rendered entries are the pointwise rendering of the raw
entries. -/
theorem serVEntries_eq_map (isep ksep : List Nat) (kvs : List (List Nat × Json)) :
    serVEntries isep ksep kvs =
      kvs.map (fun kv => (kv.1, escapeString kv.1 ++ (ksep ++ serV isep ksep kv.2))) := by
  induction kvs with
  | nil => rfl
  | cons kv kvs ih => simp [serVEntries, ih]

mutual
/-- Serialization only depends on the canonical form: recursively
sorting mapping entries first does not change the sorted-key
serialization. -/
theorem serV_canon (isep ksep : List Nat) (j : Json) :
    serV isep ksep (jsonCanon j) = serV isep ksep j := by
  cases j with
  | null => rfl
  | bool b => rfl
  | num n => rfl
  | str s => rfl
  | arr xs =>
    show 91 :: (joinSep isep (serVList isep ksep (jsonCanonL xs)) ++ [93]) =
      91 :: (joinSep isep (serVList isep ksep xs) ++ [93])
    rw [serVList_canon isep ksep xs]
  | obj kvs =>
    show 123 :: (joinSep isep
        ((sortPairs (serVEntries isep ksep (sortPairs (jsonCanonKV kvs)))).map Prod.snd) ++
        [125]) =
      123 :: (joinSep isep ((sortPairs (serVEntries isep ksep kvs)).map Prod.snd) ++ [125])
    rw [serVEntries_eq_map isep ksep (sortPairs (jsonCanonKV kvs)),
      ← sortPairs_map (fun kv => (kv.1, escapeString kv.1 ++ (ksep ++ serV isep ksep kv.2)))
        (fun p => rfl) (jsonCanonKV kvs),
      sortPairs_idem,
      ← serVEntries_eq_map isep ksep (jsonCanonKV kvs), serVEntries_canon isep ksep kvs]

/-- Canonicalization preserves the serializations of array items. -/
theorem serVList_canon (isep ksep : List Nat) (xs : List Json) :
    serVList isep ksep (jsonCanonL xs) = serVList isep ksep xs := by
  cases xs with
  | nil => rfl
  | cons x xs =>
    show serV isep ksep (jsonCanon x) :: serVList isep ksep (jsonCanonL xs) =
      serV isep ksep x :: serVList isep ksep xs
    rw [serV_canon isep ksep x, serVList_canon isep ksep xs]

/-- Canonicalization of the values preserves the rendered entries. -/
theorem serVEntries_canon (isep ksep : List Nat) (kvs : List (List Nat × Json)) :
    serVEntries isep ksep (jsonCanonKV kvs) = serVEntries isep ksep kvs := by
  cases kvs with
  | nil => rfl
  | cons kv kvs =>
    show (kv.1, escapeString kv.1 ++ (ksep ++ serV isep ksep (jsonCanon kv.2))) ::
        serVEntries isep ksep (jsonCanonKV kvs) =
      (kv.1, escapeString kv.1 ++ (ksep ++ serV isep ksep kv.2)) :: serVEntries isep ksep kvs
    rw [serV_canon isep ksep kv.2, serVEntries_canon isep ksep kvs]
end

/-- Permutation invariance of the sorted-key serialization at the top
level of a mapping. -/
theorem serV_obj_perm (isep ksep : List Nat) {kvs kvs1 : List (List Nat × Json)}
    (hp : kvs.Perm kvs1) (hn : (kvs.map Prod.fst).Nodup) :
    serV isep ksep (.obj kvs) = serV isep ksep (.obj kvs1) := by
  show 123 :: (joinSep isep ((sortPairs (serVEntries isep ksep kvs)).map Prod.snd) ++ [125]) =
    123 :: (joinSep isep ((sortPairs (serVEntries isep ksep kvs1)).map Prod.snd) ++ [125])
  rw [serVEntries_eq_map, serVEntries_eq_map]
  rw [sortPairs_eq_of_perm (hp.map _) (by rwa [List.map_map])]

/-! ### Seal transform lemmas -/

/-- XORing twice against the same cyclic key restores the data. -/
theorem xorKeyAux_involution (key : List Nat) :
    ∀ data i, xorKeyAux key i (xorKeyAux key i data) = data := by
  intro data
  induction data with
  | nil => intro i; rfl
  | cons b bs ih =>
    intro i
    show (b ^^^ key.getD (i % key.length) 0 ^^^ key.getD (i % key.length) 0) ::
      xorKeyAux key (i + 1) (xorKeyAux key (i + 1) bs) = b :: bs
    rw [Nat.xor_assoc, Nat.xor_self, Nat.xor_zero, ih]

/-- The seal XOR transform is an involution. -/
theorem xorWithKey_involution (key data : List Nat) :
    xorWithKey key (xorWithKey key data) = data :=
  xorKeyAux_involution key data 0

/-- A list starts with itself followed by anything. -/
theorem startsWithL_append : ∀ p x : List Nat, startsWithL p (p ++ x) = true := by
  intro p
  induction p with
  | nil => intro x; rfl
  | cons c cs ih =>
    intro x
    show (c == c && startsWithL cs (cs ++ x)) = true
    rw [beq_self_eq_true, ih, Bool.and_self]

/-- Dropping the twelve header bytes recovers the payload. -/
theorem drop_header (x : List Nat) : (strOf "SEAL_ENC_V1:" ++ x).drop 12 = x := by
  have h : (12 : Nat) = (strOf "SEAL_ENC_V1:").length := by decide
  rw [h, List.drop_left]

/-! ### UTF-8 round trip -/

/-- The encoding of one code point below `0x110000` decodes back to it,
leaving the rest untouched. -/
theorem utf8DecodeChar_encode (c : Nat) (h : c < 1114112) (rest : List Nat) :
    ∃ b t, utf8Char c = b :: t ∧ utf8DecodeChar b (t ++ rest) = some (c, rest) := by
  by_cases h1 : c < 128
  · refine ⟨c, [], by rw [utf8Char, if_pos h1], ?_⟩
    unfold utf8DecodeChar
    rw [if_pos h1]
    rfl
  · by_cases h2 : c < 2048
    · refine ⟨192 + c / 64, [128 + c % 64], by rw [utf8Char, if_neg h1, if_pos h2], ?_⟩
      unfold utf8DecodeChar
      rw [if_neg (by omega : ¬ (192 + c / 64 < 128)), if_neg (by omega : ¬ (192 + c / 64 < 192)),
        if_pos (by omega : 192 + c / 64 < 224)]
      show (if isCont (128 + c % 64) then
        some ((192 + c / 64 - 192) * 64 + (128 + c % 64 - 128), rest) else none) =
        some (c, rest)
      have hcont : isCont (128 + c % 64) = true := by
        unfold isCont
        simp only [Bool.and_eq_true, decide_eq_true_eq]
        omega
      rw [hcont, if_pos rfl]
      congr 2
      omega
    · by_cases h3 : c < 65536
      · refine ⟨224 + c / 4096, [128 + c / 64 % 64, 128 + c % 64],
          by rw [utf8Char, if_neg h1, if_neg h2, if_pos h3], ?_⟩
        unfold utf8DecodeChar
        rw [if_neg (by omega : ¬ (224 + c / 4096 < 128)),
          if_neg (by omega : ¬ (224 + c / 4096 < 192)),
          if_neg (by omega : ¬ (224 + c / 4096 < 224)),
          if_pos (by omega : 224 + c / 4096 < 240)]
        show (if isCont (128 + c / 64 % 64) && isCont (128 + c % 64) then
          some ((224 + c / 4096 - 224) * 4096 + (128 + c / 64 % 64 - 128) * 64 +
            (128 + c % 64 - 128), rest) else none) = some (c, rest)
        have hcont : (isCont (128 + c / 64 % 64) && isCont (128 + c % 64)) = true := by
          unfold isCont
          simp only [Bool.and_eq_true, decide_eq_true_eq]
          omega
        rw [hcont, if_pos rfl]
        congr 2
        omega
      · refine ⟨240 + c / 262144, [128 + c / 4096 % 64, 128 + c / 64 % 64, 128 + c % 64],
          by rw [utf8Char, if_neg h1, if_neg h2, if_neg h3], ?_⟩
        unfold utf8DecodeChar
        rw [if_neg (by omega : ¬ (240 + c / 262144 < 128)),
          if_neg (by omega : ¬ (240 + c / 262144 < 192)),
          if_neg (by omega : ¬ (240 + c / 262144 < 224)),
          if_neg (by omega : ¬ (240 + c / 262144 < 240)),
          if_pos (by omega : 240 + c / 262144 < 248)]
        show (if isCont (128 + c / 4096 % 64) && isCont (128 + c / 64 % 64) &&
            isCont (128 + c % 64) then
          some ((240 + c / 262144 - 240) * 262144 + (128 + c / 4096 % 64 - 128) * 4096 +
            (128 + c / 64 % 64 - 128) * 64 + (128 + c % 64 - 128), rest) else none) =
          some (c, rest)
        have hcont : (isCont (128 + c / 4096 % 64) && isCont (128 + c / 64 % 64) &&
            isCont (128 + c % 64)) = true := by
          unfold isCont
          simp only [Bool.and_eq_true, decide_eq_true_eq]
          omega
        rw [hcont, if_pos rfl]
        congr 2
        omega

/-- The fuelled decode loop inverts encoding given fuel above the
character count. -/
theorem utf8DecodeAux_encode : ∀ (fuel : Nat) (s : List Nat), (∀ c ∈ s, c < 1114112) →
    s.length < fuel → utf8DecodeAux fuel (utf8Encode s) = some s := by
  intro fuel
  induction fuel with
  | zero => intro s _ hl; omega
  | succ fuel ih =>
    intro s hs hl
    cases s with
    | nil => rfl
    | cons c cs =>
      have he : utf8Encode (c :: cs) = utf8Char c ++ utf8Encode cs := by simp [utf8Encode]
      obtain ⟨b, t, hbt, hdec⟩ := utf8DecodeChar_encode c (hs c (by simp)) (utf8Encode cs)
      rw [he, hbt]
      show (match utf8DecodeChar b (t ++ utf8Encode cs) with
        | none => none
        | some (c2, rest2) => (utf8DecodeAux fuel rest2).map (fun r => c2 :: r)) = some (c :: cs)
      rw [hdec]
      show (utf8DecodeAux fuel (utf8Encode cs)).map (fun r => c :: r) = some (c :: cs)
      rw [ih cs (fun x hx => hs x (by simp [hx])) (by simp at hl; omega)]
      rfl

/-- Each code point takes at least one byte. -/
theorem utf8Char_length_pos (c : Nat) : 0 < (utf8Char c).length := by
  unfold utf8Char
  split_ifs <;> simp

/-- A string is no longer than its UTF-8 encoding. -/
theorem length_le_utf8Encode (s : List Nat) : s.length ≤ (utf8Encode s).length := by
  induction s with
  | nil => simp [utf8Encode]
  | cons c cs ih =>
    have he : utf8Encode (c :: cs) = utf8Char c ++ utf8Encode cs := by simp [utf8Encode]
    rw [he]
    simp only [List.length_cons, List.length_append]
    have := utf8Char_length_pos c
    omega

/-- UTF-8 decoding inverts encoding for code points below `0x110000`. -/
theorem utf8Decode_encode (s : List Nat) (h : ∀ c ∈ s, c < 1114112) :
    utf8Decode (utf8Encode s) = some s := by
  unfold utf8Decode
  exact utf8DecodeAux_encode _ s h (by have := length_le_utf8Encode s; omega)

/-! ### Parser support lemmas -/

/-- A whitespace head is skipped. -/
theorem skipWs_cons_ws {c : Nat} (hc : isWsChar c = true) (s : List Nat) :
    skipWs (c :: s) = skipWs s := by
  show (if isWsChar c = true then skipWs s else c :: s) = skipWs s
  rw [hc]
  rfl

/-- Leading whitespace is skipped. -/
theorem skipWs_ws_append (w : List Nat) (hw : ∀ c ∈ w, isWsChar c = true) (s : List Nat) :
    skipWs (w ++ s) = skipWs s := by
  induction w with
  | nil => rfl
  | cons c cs ih =>
    show skipWs (c :: (cs ++ s)) = skipWs s
    rw [skipWs_cons_ws (hw c (by simp))]
    exact ih (fun x hx => hw x (by simp [hx]))

/-- A non-whitespace head stops the skip. -/
theorem skipWs_cons_nonws {c : Nat} (hc : isWsChar c = false) (s : List Nat) :
    skipWs (c :: s) = c :: s := by
  show (if isWsChar c = true then skipWs s else c :: s) = c :: s
  simp [hc]

/-- Parsing a value only looks at the input through `skipWs`. -/
theorem parseV_congr : ∀ (fuel : Nat) {s1 s2 : List Nat}, skipWs s1 = skipWs s2 →
    parseV fuel s1 = parseV fuel s2
  | 0, _, _, _ => rfl
  | fuel + 1, s1, s2, h => by
    simp only [parseV]
    rw [h]

/-- Parsing members only looks at the input through `skipWs`. -/
theorem parseMembers_congr : ∀ (fuel : Nat) {s1 s2 : List Nat}, skipWs s1 = skipWs s2 →
    parseMembers fuel s1 = parseMembers fuel s2
  | 0, _, _, _ => rfl
  | fuel + 1, s1, s2, h => by
    simp only [parseMembers]
    rw [h]

/-- Parsing items only looks at the input through `skipWs`. -/
theorem parseItems_congr : ∀ (fuel : Nat) {s1 s2 : List Nat}, skipWs s1 = skipWs s2 →
    parseItems fuel s1 = parseItems fuel s2
  | 0, _, _, _ => rfl
  | fuel + 1, s1, s2, h => by
    simp only [parseItems]
    rw [parseV_congr fuel h]

/-! ### Numeric literal round trip -/

/-- Does the input avoid starting with a digit (so that a parsed number
cannot be extended by the continuation)? -/
def noLeadDigit : List Nat → Bool
  | [] => true
  | c :: _ => !digitB c

/-- Digits of `natDecAux` are digit characters (boolean form). -/
theorem natDecAux_digitB (fuel : Nat) : ∀ n, ∀ c ∈ natDecAux fuel n, digitB c = true := by
  intro n c hc
  have h := natDecAux_digits fuel n c hc
  unfold digitB
  simp only [Bool.and_eq_true, decide_eq_true_eq]
  omega

/-- The decimal rendering is never empty. -/
theorem natDec_ne_nil (n : Nat) : natDec n ≠ [] := by
  unfold natDec natDecAux
  by_cases h : n < 10
  · rw [if_pos h]
    simp
  · rw [if_neg h]
    simp

/-- Folding the digit accumulator over `natDecAux` recovers the
number. -/
theorem natDecAux_foldl : ∀ (fuel n a : Nat), n < fuel →
    (natDecAux fuel n).foldl (fun x c => 10 * x + (c - 48)) a =
      a * 10 ^ (natDecAux fuel n).length + n := by
  intro fuel
  induction fuel with
  | zero => intro n a h; omega
  | succ fuel ih =>
    intro n a h
    unfold natDecAux
    by_cases h10 : n < 10
    · rw [if_pos h10]
      simp only [List.foldl_cons, List.foldl_nil, List.length_cons, List.length_nil]
      have : (48 + n) - 48 = n := by omega
      rw [this]
      ring_nf
    · rw [if_neg h10]
      have hfd : n / 10 < fuel := by omega
      rw [List.foldl_append, ih (n / 10) a hfd]
      simp only [List.foldl_cons, List.foldl_nil, List.length_append, List.length_cons,
        List.length_nil]
      have h48 : (48 + n % 10) - 48 = n % 10 := by omega
      rw [h48, pow_succ]
      have hmod := Nat.div_add_mod n 10
      ring_nf
      omega

/-- The digit value of a rendered natural is itself. -/
theorem digitsVal_natDec (n : Nat) : digitsVal (natDec n) = n := by
  unfold digitsVal natDec
  rw [natDecAux_foldl (n + 1) n 0 (by omega)]
  simp

/-- Taking digits from a digit run followed by a non-digit returns the
run and the rest. -/
theorem takeDigits_append : ∀ (ds rest : List Nat), (∀ d ∈ ds, digitB d = true) →
    noLeadDigit rest = true → takeDigits (ds ++ rest) = (ds, rest) := by
  intro ds
  induction ds with
  | nil =>
    intro rest _ hr
    cases rest with
    | nil => rfl
    | cons c r =>
      have hc : digitB c = false := by simpa [noLeadDigit] using hr
      show takeDigits (c :: r) = ([], c :: r)
      unfold takeDigits
      rw [hc]
      rfl
  | cons d ds ih =>
    intro rest hds hr
    show takeDigits (d :: (ds ++ rest)) = (d :: ds, rest)
    unfold takeDigits
    rw [hds d (by simp), ih rest (fun x hx => hds x (by simp [hx])) hr]
    rfl

/-- Parsing a rendered natural returns it and the rest. -/
theorem parseNat_natDec (n : Nat) (rest : List Nat) (h : noLeadDigit rest = true) :
    parseNat (natDec n ++ rest) = some (n, rest) := by
  have hdig : ∀ d ∈ natDec n, digitB d = true := fun d hd => natDecAux_digitB (n + 1) n d hd
  unfold parseNat
  rw [takeDigits_append (natDec n) rest hdig h]
  cases hd : natDec n with
  | nil => exact absurd hd (natDec_ne_nil n)
  | cons d ds =>
    show some (digitsVal (d :: ds), rest) = some (n, rest)
    rw [← hd, digitsVal_natDec]

/-! ### String literal round trip -/

/-- The hex rendering of a 16-bit value reads back as itself. -/
theorem hex4Val_hexDigit4 (v : Nat) (hv : v < 65536) :
    hex4Val (hexDigit (v / 4096 % 16)) (hexDigit (v / 256 % 16))
      (hexDigit (v / 16 % 16)) (hexDigit (v % 16)) = some v := by
  unfold hex4Val
  rw [hexVal_hexDigit _ (by omega), hexVal_hexDigit _ (by omega),
    hexVal_hexDigit _ (by omega), hexVal_hexDigit _ (by omega)]
  show some (4096 * (v / 4096 % 16) + 256 * (v / 256 % 16) + 16 * (v / 16 % 16) + v % 16) = some v
  congr 1
  omega

/-- Parsing a `\uXXXX` escape body for a non-surrogate value below 65536. -/
theorem parseStrChars_u4 (fuel v : Nat) (hv : v < 65536)
    (hs : ¬(55296 ≤ v ∧ v < 57344)) (t : List Nat) :
    parseStrChars (fuel + 1) (92 :: 117 :: hexDigit4 v ++ t) =
      match parseStrChars fuel t with
      | none => none
      | some p => some (v :: p.1, p.2) := by
  show parseStrChars (fuel + 1) (92 :: 117 :: hexDigit (v / 4096 % 16) :: hexDigit (v / 256 % 16) ::
    hexDigit (v / 16 % 16) :: hexDigit (v % 16) :: t) = _
  have h1 : ¬(55296 ≤ v ∧ v < 56320) := by omega
  have h2 : ¬(56320 ≤ v ∧ v < 57344) := by omega
  simp only [parseStrChars]
  rw [if_neg (by decide : ¬(92 : Nat) = 34), if_pos trivial, hex4Val_hexDigit4 v hv]
  simp only [h1, h2, if_false]

/-- Parsing a surrogate-pair escape, with the twelve escape characters
generalized. -/
theorem parseStrChars_pair (f v w d1 d2 d3 d4 e1 e2 e3 e4 : Nat) (t : List Nat)
    (hd : hex4Val d1 d2 d3 d4 = some v) (hv : 55296 ≤ v ∧ v < 56320)
    (he : hex4Val e1 e2 e3 e4 = some w) (hw : 56320 ≤ w ∧ w < 57344) :
    parseStrChars (f + 1) (92 :: 117 :: d1 :: d2 :: d3 :: d4 ::
      (92 :: 117 :: e1 :: e2 :: e3 :: e4 :: t)) =
      match parseStrChars f t with
      | none => none
      | some p => some ((65536 + 1024 * (v - 55296) + (w - 56320)) :: p.1, p.2) := by
  simp only [parseStrChars]
  rw [if_neg (by decide : ¬(92 : Nat) = 34), if_pos trivial, hd]
  simp only [if_pos hv, he, if_pos hw]

/-- One escaped character at the head of the input parses back to the
character, consuming one unit of fuel. -/
theorem parseStrChars_escape_step (c f : Nat) (hOK : c < 1114112 ∧ ¬(55296 ≤ c ∧ c < 57344))
    (t : List Nat) :
    parseStrChars (f + 1 + 1) (escapeChar c ++ t) =
      match parseStrChars (f + 1) t with
      | none => none
      | some p => some (c :: p.1, p.2) := by
  unfold escapeChar
  by_cases g1 : c = 34
  · subst g1
    rw [if_pos rfl]
    show parseStrChars (f + 1 + 1) (92 :: 34 :: t) = _
    simp only [parseStrChars]
    simp [charOfEscape]
  rw [if_neg g1]
  by_cases g2 : c = 92
  · subst g2
    rw [if_pos rfl]
    show parseStrChars (f + 1 + 1) (92 :: 92 :: t) = _
    simp only [parseStrChars]
    simp [charOfEscape]
  rw [if_neg g2]
  by_cases g3 : c = 8
  · subst g3
    rw [if_pos rfl]
    show parseStrChars (f + 1 + 1) (92 :: 98 :: t) = _
    simp only [parseStrChars]
    simp [charOfEscape]
  rw [if_neg g3]
  by_cases g4 : c = 12
  · subst g4
    rw [if_pos rfl]
    show parseStrChars (f + 1 + 1) (92 :: 102 :: t) = _
    simp only [parseStrChars]
    simp [charOfEscape]
  rw [if_neg g4]
  by_cases g5 : c = 10
  · subst g5
    rw [if_pos rfl]
    show parseStrChars (f + 1 + 1) (92 :: 110 :: t) = _
    simp only [parseStrChars]
    simp [charOfEscape]
  rw [if_neg g5]
  by_cases g6 : c = 13
  · subst g6
    rw [if_pos rfl]
    show parseStrChars (f + 1 + 1) (92 :: 114 :: t) = _
    simp only [parseStrChars]
    simp [charOfEscape]
  rw [if_neg g6]
  by_cases g7 : c = 9
  · subst g7
    rw [if_pos rfl]
    show parseStrChars (f + 1 + 1) (92 :: 116 :: t) = _
    simp only [parseStrChars]
    simp [charOfEscape]
  rw [if_neg g7]
  by_cases g8 : c < 32
  · rw [if_pos g8]
    rw [show (92 :: 117 :: hexDigit4 c) ++ t = 92 :: 117 :: hexDigit4 c ++ t from rfl]
    rw [parseStrChars_u4 (f + 1) c (by omega) (by omega) t]
  rw [if_neg g8]
  by_cases g9 : c < 127
  · rw [if_pos g9]
    show parseStrChars (f + 1 + 1) (c :: t) = _
    simp only [parseStrChars]
    rw [if_neg g1, if_neg g2, if_neg (by omega : ¬c < 32)]
  rw [if_neg g9]
  by_cases g10 : c < 65536
  · rw [if_pos g10]
    rw [show (92 :: 117 :: hexDigit4 c) ++ t = 92 :: 117 :: hexDigit4 c ++ t from rfl]
    rw [parseStrChars_u4 (f + 1) c (by omega) (by omega) t]
  rw [if_neg g10]
  have h1 : 55296 ≤ 55296 + (c - 65536) / 1024 ∧ 55296 + (c - 65536) / 1024 < 56320 := by
    omega
  have h2 : 56320 ≤ 56320 + (c - 65536) % 1024 ∧ 56320 + (c - 65536) % 1024 < 57344 := by
    omega
  rw [show (92 :: 117 :: hexDigit4 (55296 + (c - 65536) / 1024) ++
      (92 :: 117 :: hexDigit4 (56320 + (c - 65536) % 1024))) ++ t =
      92 :: 117 :: hexDigit ((55296 + (c - 65536) / 1024) / 4096 % 16) ::
      hexDigit ((55296 + (c - 65536) / 1024) / 256 % 16) ::
      hexDigit ((55296 + (c - 65536) / 1024) / 16 % 16) ::
      hexDigit ((55296 + (c - 65536) / 1024) % 16) ::
      (92 :: 117 :: hexDigit ((56320 + (c - 65536) % 1024) / 4096 % 16) ::
       hexDigit ((56320 + (c - 65536) % 1024) / 256 % 16) ::
       hexDigit ((56320 + (c - 65536) % 1024) / 16 % 16) ::
       hexDigit ((56320 + (c - 65536) % 1024) % 16) :: t) from rfl]
  rw [parseStrChars_pair (f + 1) (55296 + (c - 65536) / 1024) (56320 + (c - 65536) % 1024)
    _ _ _ _ _ _ _ _ t (hex4Val_hexDigit4 _ (by omega)) h1 (hex4Val_hexDigit4 _ (by omega)) h2]
  have hcc : 65536 + 1024 * (55296 + (c - 65536) / 1024 - 55296) +
      (56320 + (c - 65536) % 1024 - 56320) = c := by omega
  rw [hcc]

/-- The escape rendering of a scalar string, followed by the closing
quote, parses back to the string. -/
theorem parseStrChars_escape : ∀ (s : List Nat) (fuel : Nat), s.all scalarOK = true →
    s.length < fuel + 1 → ∀ rest,
    parseStrChars (fuel + 1) (s.flatMap escapeChar ++ (34 :: rest)) = some (s, rest) := by
  intro s
  induction s with
  | nil =>
    intro fuel _ _ rest
    show parseStrChars (fuel + 1) (34 :: rest) = some ([], rest)
    simp [parseStrChars]
  | cons c cs ih =>
    intro fuel hall hlen rest
    have hc : scalarOK c = true := by
      simp only [List.all_cons, Bool.and_eq_true] at hall
      exact hall.1
    obtain ⟨f, rfl⟩ : ∃ f, fuel = f + 1 := by
      cases fuel with
      | zero => simp at hlen
      | succ f => exact ⟨f, rfl⟩
    have ht := ih f (by simp only [List.all_cons, Bool.and_eq_true] at hall; exact hall.2)
      (by simpa using Nat.lt_of_succ_lt_succ hlen) rest
    have hOK : c < 1114112 ∧ ¬(55296 ≤ c ∧ c < 57344) := by
      simp only [scalarOK, Bool.and_eq_true, Bool.not_eq_true', Bool.and_eq_false_iff,
        decide_eq_true_eq, decide_eq_false_iff_not] at hc
      rcases hc with ⟨h1, h2 | h2⟩ <;> exact ⟨h1, by omega⟩
    show parseStrChars (f + 1 + 1) ((escapeChar c ++ cs.flatMap escapeChar) ++ (34 :: rest)) = _
    rw [List.append_assoc, parseStrChars_escape_step c f hOK, ht]

/-! ### Serialized output shape -/

/-- Members of a separator-joined list come from the separator or one
of the parts. -/
theorem mem_joinSep (sep : List Nat) : ∀ (parts : List (List Nat)) (x : Nat),
    x ∈ joinSep sep parts → x ∈ sep ∨ ∃ p ∈ parts, x ∈ p := by
  intro parts
  induction parts with
  | nil => intro x hx; simp [joinSep] at hx
  | cons p ps ih =>
    intro x hx
    cases ps with
    | nil =>
      simp only [joinSep] at hx
      exact Or.inr ⟨p, by simp, hx⟩
    | cons p2 ps2 =>
      simp only [joinSep, List.mem_append] at hx
      rcases hx with hx | hx | hx
      · exact Or.inr ⟨p, by simp, hx⟩
      · exact Or.inl hx
      · rcases ih x hx with h | ⟨q, hq, hxq⟩
        · exact Or.inl h
        · exact Or.inr ⟨q, by simp [hq], hxq⟩

/-- Hex digits are printable ASCII. -/
theorem hexDigit_ascii (n : Nat) (h : n < 16) : 32 ≤ hexDigit n ∧ hexDigit n < 128 := by
  unfold hexDigit
  by_cases h10 : n < 10
  · rw [if_pos h10]; omega
  · rw [if_neg h10]; omega

/-- Members of a `\uXXXX` escape body are printable ASCII. -/
theorem hexDigit4_ascii (n : Nat) : ∀ x ∈ hexDigit4 n, 32 ≤ x ∧ x < 128 := by
  intro x hx
  have d1 := hexDigit_ascii (n / 4096 % 16) (by omega)
  have d2 := hexDigit_ascii (n / 256 % 16) (by omega)
  have d3 := hexDigit_ascii (n / 16 % 16) (by omega)
  have d4 := hexDigit_ascii (n % 16) (by omega)
  simp only [hexDigit4, List.mem_cons, List.not_mem_nil, or_false] at hx
  rcases hx with rfl | rfl | rfl | rfl <;> omega

/-- Every character an escape produces is printable ASCII. -/
theorem escapeChar_ascii (c : Nat) : ∀ x ∈ escapeChar c, 32 ≤ x ∧ x < 128 := by
  intro x hx
  unfold escapeChar at hx
  by_cases g1 : c = 34
  · rw [if_pos g1] at hx
    rcases List.mem_cons.mp hx with rfl | hx
    · omega
    · rcases List.mem_cons.mp hx with rfl | hx
      · omega
      · simp at hx
  rw [if_neg g1] at hx
  by_cases g2 : c = 92
  · rw [if_pos g2] at hx
    rcases List.mem_cons.mp hx with rfl | hx
    · omega
    · rcases List.mem_cons.mp hx with rfl | hx
      · omega
      · simp at hx
  rw [if_neg g2] at hx
  by_cases g3 : c = 8
  · rw [if_pos g3] at hx
    rcases List.mem_cons.mp hx with rfl | hx
    · omega
    · rcases List.mem_cons.mp hx with rfl | hx
      · omega
      · simp at hx
  rw [if_neg g3] at hx
  by_cases g4 : c = 12
  · rw [if_pos g4] at hx
    rcases List.mem_cons.mp hx with rfl | hx
    · omega
    · rcases List.mem_cons.mp hx with rfl | hx
      · omega
      · simp at hx
  rw [if_neg g4] at hx
  by_cases g5 : c = 10
  · rw [if_pos g5] at hx
    rcases List.mem_cons.mp hx with rfl | hx
    · omega
    · rcases List.mem_cons.mp hx with rfl | hx
      · omega
      · simp at hx
  rw [if_neg g5] at hx
  by_cases g6 : c = 13
  · rw [if_pos g6] at hx
    rcases List.mem_cons.mp hx with rfl | hx
    · omega
    · rcases List.mem_cons.mp hx with rfl | hx
      · omega
      · simp at hx
  rw [if_neg g6] at hx
  by_cases g7 : c = 9
  · rw [if_pos g7] at hx
    rcases List.mem_cons.mp hx with rfl | hx
    · omega
    · rcases List.mem_cons.mp hx with rfl | hx
      · omega
      · simp at hx
  rw [if_neg g7] at hx
  by_cases g8 : c < 32
  · rw [if_pos g8] at hx
    rcases List.mem_cons.mp hx with rfl | hx
    · omega
    · rcases List.mem_cons.mp hx with rfl | hx
      · omega
      · exact hexDigit4_ascii c x hx
  rw [if_neg g8] at hx
  by_cases g9 : c < 127
  · rw [if_pos g9] at hx
    rcases List.mem_cons.mp hx with rfl | hx
    · omega
    · simp at hx
  rw [if_neg g9] at hx
  by_cases g10 : c < 65536
  · rw [if_pos g10] at hx
    rcases List.mem_cons.mp hx with rfl | hx
    · omega
    · rcases List.mem_cons.mp hx with rfl | hx
      · omega
      · exact hexDigit4_ascii c x hx
  rw [if_neg g10] at hx
  rcases List.mem_append.mp hx with hx | hx
  · rcases List.mem_cons.mp hx with rfl | hx
    · omega
    · rcases List.mem_cons.mp hx with rfl | hx
      · omega
      · exact hexDigit4_ascii (55296 + (c - 65536) / 1024) x hx
  · rcases List.mem_cons.mp hx with rfl | hx
    · omega
    · rcases List.mem_cons.mp hx with rfl | hx
      · omega
      · exact hexDigit4_ascii (56320 + (c - 65536) % 1024) x hx

/-- Every character in a serialized string literal is ASCII. -/
theorem escapeString_ascii (s : List Nat) : ∀ x ∈ escapeString s, x < 128 := by
  intro x hx
  unfold escapeString at hx
  rcases List.mem_cons.mp hx with rfl | hx
  · omega
  rcases List.mem_append.mp hx with hx | hx
  · rcases List.mem_flatMap.mp hx with ⟨c, _, hxc⟩
    exact (escapeChar_ascii c x hxc).2
  · rcases List.mem_singleton.mp hx with rfl
    omega

/-- Digits and the sign of a rendered integer are ASCII. -/
theorem intDec_ascii (n : Int) : ∀ x ∈ intDec n, x < 128 := by
  intro x hx
  cases n with
  | ofNat m =>
    have := natDecAux_digits (m + 1) m x hx
    omega
  | negSucc m =>
    simp only [intDec, List.mem_cons] at hx
    rcases hx with rfl | hx
    · omega
    · have := natDecAux_digits (m + 1 + 1) (m + 1) x hx
      omega

/-- Membership in a pretty-printed bracketed container decomposes into
the punctuation, the indentation space, or one of the parts. -/
theorem mem_serP_container {o cl d x : Nat} {parts : List (List Nat)}
    (hx : x ∈ o :: 10 :: (ind2 (d + 1) ++
      joinSep (44 :: 10 :: ind2 (d + 1)) parts ++ (10 :: ind2 d ++ [cl]))) :
    x = o ∨ x = 10 ∨ x = 32 ∨ x = 44 ∨ x = cl ∨ ∃ p ∈ parts, x ∈ p := by
  rcases List.mem_cons.mp hx with rfl | hx
  · tauto
  rcases List.mem_cons.mp hx with rfl | hx
  · tauto
  rcases List.mem_append.mp hx with hx | hx
  · rcases List.mem_append.mp hx with hx | hx
    · have := List.eq_of_mem_replicate hx
      tauto
    · rcases mem_joinSep _ _ x hx with hsep | hpart
      · rcases List.mem_cons.mp hsep with rfl | hsep
        · tauto
        rcases List.mem_cons.mp hsep with rfl | hsep
        · tauto
        have := List.eq_of_mem_replicate hsep
        tauto
      · tauto
  · rcases List.mem_cons.mp hx with rfl | hx
    · tauto
    rcases List.mem_append.mp hx with hx | hx
    · have := List.eq_of_mem_replicate hx
      tauto
    · rcases List.mem_singleton.mp hx with rfl
      tauto

mutual
/-- Every character the pretty serializer emits is ASCII. -/
theorem serP_ascii (d : Nat) (j : Json) : ∀ x ∈ serP d j, x < 128 := by
  intro x hx
  cases j with
  | null =>
    rw [show serP d Json.null = [110, 117, 108, 108] from rfl] at hx
    simp at hx
    omega
  | bool b =>
    cases b with
    | true =>
      rw [show serP d (Json.bool true) = [116, 114, 117, 101] from rfl] at hx
      simp at hx
      omega
    | false =>
      rw [show serP d (Json.bool false) = [102, 97, 108, 115, 101] from rfl] at hx
      simp at hx
      omega
  | num n => exact intDec_ascii n x hx
  | str s => exact escapeString_ascii s x hx
  | arr xs =>
    cases xs with
    | nil =>
      rw [show serP d (Json.arr []) = [91, 93] from rfl] at hx
      simp at hx
      omega
    | cons y ys =>
      simp only [serP] at hx
      rcases mem_serP_container hx with rfl | rfl | rfl | rfl | rfl | ⟨p, hp, hxp⟩
      · omega
      · omega
      · omega
      · omega
      · omega
      · exact serPList_ascii (d + 1) (y :: ys) p hp x hxp
  | obj kvs =>
    cases kvs with
    | nil =>
      rw [show serP d (Json.obj []) = [123, 125] from rfl] at hx
      simp at hx
      omega
    | cons kv kvs =>
      simp only [serP] at hx
      rcases mem_serP_container hx with rfl | rfl | rfl | rfl | rfl | ⟨p, hp, hxp⟩
      · omega
      · omega
      · omega
      · omega
      · omega
      · exact serPEntries_ascii (d + 1) (kv :: kvs) p hp x hxp

/-- Every pretty-printed array item is ASCII. -/
theorem serPList_ascii (d : Nat) (xs : List Json) :
    ∀ p ∈ serPList d xs, ∀ x ∈ p, x < 128 := by
  intro p hp x hxp
  cases xs with
  | nil => simp [serPList] at hp
  | cons y ys =>
    simp only [serPList, List.mem_cons] at hp
    rcases hp with rfl | hp
    · exact serP_ascii d y x hxp
    · exact serPList_ascii d ys p hp x hxp

/-- Every pretty-printed mapping entry is ASCII. -/
theorem serPEntries_ascii (d : Nat) (kvs : List (List Nat × Json)) :
    ∀ p ∈ serPEntries d kvs, ∀ x ∈ p, x < 128 := by
  intro p hp x hxp
  cases kvs with
  | nil => simp [serPEntries] at hp
  | cons kv kvs =>
    simp only [serPEntries, List.mem_cons] at hp
    rcases hp with rfl | hp
    · simp only [List.mem_append] at hxp
      rcases hxp with hx | hx | hx
      · exact escapeString_ascii kv.1 x hx
      · rw [show strOf ": " = [58, 32] from rfl] at hx
        simp at hx
        omega
      · exact serP_ascii d kv.2 x hx
    · exact serPEntries_ascii d kvs p hp x hxp
end

/-! ## Claim theorems -/

/-- C1 — the report digest serialization is claimed to be injective over
the eight-field tuples, but `create_report_digest` joins the
stringified fields with the raw `||` delimiter, so two distinct tuples
whose fields carry the delimiter serialize and hash identically: moving
the characters `||b` from the end of `h_in` to the start of `h_out`
leaves the joined string, and hence the digest, unchanged. -/
theorem C1_report_digest_collision :
    (strOf "a||b", strOf "c") ≠ (strOf "a", strOf "b||c") ∧
    create_report_digest (strOf "e") (strOf "m") (strOf "a||b") (strOf "c")
        (strOf "i") (strOf "h") 0 (strOf "n") =
      create_report_digest (strOf "e") (strOf "m") (strOf "a") (strOf "b||c")
        (strOf "i") (strOf "h") 0 (strOf "n") := by
  constructor
  · decide
  · have h : joinSep (strOf "||")
        [strOf "a||b", strOf "c", strOf "i", strOf "h", natDec 0, strOf "n", strOf "e", strOf "m"] =
        joinSep (strOf "||")
        [strOf "a", strOf "b||c", strOf "i", strOf "h", natDec 0, strOf "n", strOf "e", strOf "m"] := by
      decide
    unfold create_report_digest
    rw [h]

/-- C4 — canonical hashing is key-order invariant: permuting the
entries of a mapping (whose keys, as keys of a Python dict, are
distinct) leaves `hash_input` and `hash_bundle` unchanged, and any two
values with the same recursive key-sorted canonical form — that is,
equal up to permutation of mapping entries at every nesting depth —
receive identical digests from `hash_input`, `hash_output` and
`hash_bundle` alike; digests of structurally equal values are therefore
byte-identical within each function. -/
theorem C4_hash_key_order_invariance :
    (∀ kvs kvs1 : List (List Nat × Json), kvs.Perm kvs1 → (kvs.map Prod.fst).Nodup →
      hash_input (.obj kvs) = hash_input (.obj kvs1) ∧
      hash_bundle (.obj kvs) = hash_bundle (.obj kvs1)) ∧
    (∀ a b : Json, jsonCanon a = jsonCanon b →
      hash_input a = hash_input b ∧ hash_output a = hash_output b ∧
      hash_bundle a = hash_bundle b) := by
  constructor
  · intro kvs kvs1 hp hn
    constructor
    · unfold hash_input dumpsSorted
      rw [serV_obj_perm _ _ hp hn]
    · unfold hash_bundle dumpsCompact
      rw [serV_obj_perm _ _ hp hn]
  · intro a b h
    have h1 : dumpsSorted a = dumpsSorted b := by
      unfold dumpsSorted
      rw [← serV_canon _ _ a, ← serV_canon _ _ b, h]
    have h2 : dumpsCompact a = dumpsCompact b := by
      unfold dumpsCompact
      rw [← serV_canon _ _ a, ← serV_canon _ _ b, h]
    refine ⟨?_, ?_, ?_⟩
    · unfold hash_input
      rw [h1]
    · unfold hash_output
      rw [h1]
    · unfold hash_bundle
      rw [h2]

/-- C4 witness: swapping the two entries of a concrete mapping leaves
all three digests unchanged. -/
theorem C4_hash_key_order_invariance_witness :
    ([(strOf "a", Json.num 1), (strOf "b", Json.num 2)] :
        List (List Nat × Json)).Perm [(strOf "b", Json.num 2), (strOf "a", Json.num 1)] ∧
    (([(strOf "a", Json.num 1), (strOf "b", Json.num 2)] :
        List (List Nat × Json)).map Prod.fst).Nodup ∧
    jsonCanon (.obj [(strOf "a", Json.num 1), (strOf "b", Json.num 2)]) =
      jsonCanon (.obj [(strOf "b", Json.num 2), (strOf "a", Json.num 1)]) ∧
    hash_input (.obj [(strOf "a", Json.num 1), (strOf "b", Json.num 2)]) =
      hash_input (.obj [(strOf "b", Json.num 2), (strOf "a", Json.num 1)]) ∧
    hash_output (.obj [(strOf "a", Json.num 1), (strOf "b", Json.num 2)]) =
      hash_output (.obj [(strOf "b", Json.num 2), (strOf "a", Json.num 1)]) ∧
    hash_bundle (.obj [(strOf "a", Json.num 1), (strOf "b", Json.num 2)]) =
      hash_bundle (.obj [(strOf "b", Json.num 2), (strOf "a", Json.num 1)]) := by
  have hperm : ([(strOf "a", Json.num 1), (strOf "b", Json.num 2)] :
      List (List Nat × Json)).Perm [(strOf "b", Json.num 2), (strOf "a", Json.num 1)] :=
    List.Perm.swap _ _ _
  have h := (C4_hash_key_order_invariance.2
    (.obj [(strOf "a", Json.num 1), (strOf "b", Json.num 2)])
    (.obj [(strOf "b", Json.num 2), (strOf "a", Json.num 1)]) rfl)
  have h1 := (C4_hash_key_order_invariance.1
    [(strOf "a", Json.num 1), (strOf "b", Json.num 2)]
    [(strOf "b", Json.num 2), (strOf "a", Json.num 1)] hperm (by decide))
  exact ⟨hperm, by decide, rfl, h1.1, h.2.1, h1.2⟩

/-- C5 (amended) — whenever `_create_public_summary` returns (that is,
whenever the evidence's `tee_attestation` entry, taken as `{}` when
absent, is a mapping), the summary's key set is the fixed seven-key
allow-list, independent of the evidence, and contains neither
`rationale` nor `sources`. -/
theorem C5_public_summary_allowlist (kvs : List (List Nat × Json)) (tkvs : List (List Nat × Json))
    (m : List Nat)
    (h : dictGet kvs (strOf "tee_attestation") (.obj []) = .obj tkvs) :
    ∃ s, create_public_summary (.obj kvs) m = some s ∧
      objKeys s = [strOf "market_id", strOf "outcome", strOf "resolution_date",
        strOf "oracle_version", strOf "evidence_type", strOf "premium_available",
        strOf "message"] ∧
      strOf "rationale" ∉ objKeys s ∧ strOf "sources" ∉ objKeys s := by
  simp only [create_public_summary, h]
  refine ⟨_, rfl, rfl, ?_, ?_⟩
  · show strOf "rationale" ∉ [strOf "market_id", strOf "outcome", strOf "resolution_date",
      strOf "oracle_version", strOf "evidence_type", strOf "premium_available", strOf "message"]
    decide
  · show strOf "sources" ∉ [strOf "market_id", strOf "outcome", strOf "resolution_date",
      strOf "oracle_version", strOf "evidence_type", strOf "premium_available", strOf "message"]
    decide

/-- C5 witness: concrete evidence carrying extra fields still maps to
exactly the allow-list keys. -/
theorem C5_public_summary_allowlist_witness :
    ∃ s, create_public_summary
        (.obj [(strOf "rationale", .str (strOf "secret")), (strOf "sources", .arr [])])
        (strOf "m") = some s ∧
      objKeys s = [strOf "market_id", strOf "outcome", strOf "resolution_date",
        strOf "oracle_version", strOf "evidence_type", strOf "premium_available",
        strOf "message"] ∧
      strOf "rationale" ∉ objKeys s ∧ strOf "sources" ∉ objKeys s :=
  C5_public_summary_allowlist
    [(strOf "rationale", .str (strOf "secret")), (strOf "sources", .arr [])] [] (strOf "m") rfl

/-- C5 counterexample: the claim quantifies over every evidence object,
but evidence whose `tee_attestation` entry is not a mapping makes
`_create_public_summary` raise an `AttributeError` (`int` has no
attribute `get`) instead of producing a summary with the allow-list
keys. -/
theorem C5_public_summary_counterexample :
    create_public_summary (.obj [(strOf "tee_attestation", .num 5)]) (strOf "m") = none := rfl

/-- C6 (amended) — `hash_input` and `hash_output` run the identical
computation and agree on every value, but `hash_bundle` serializes with
the compact separators where the other two use the default ones, so the
bytes hashed on the two paths differ already on the single-entry
mapping with key `a` and value `1`; the divergence is
separator-dependent, not universal: the one-element list `[1]`, whose
default rendering uses no item or key separator, serializes identically
on both paths. -/
theorem C6_hash_functions_agreement :
    (∀ d : Json, hash_input d = hash_output d) ∧
    dumpsSorted (.obj [(strOf "a", .num 1)]) ≠ dumpsCompact (.obj [(strOf "a", .num 1)]) ∧
    dumpsSorted (.arr [.num 1]) = dumpsCompact (.arr [.num 1]) :=
  ⟨fun _ => rfl, by decide, rfl⟩

/-- C6 counterexample: the digests of the two call-site families differ
on the mapping with the single key `a` and value `1`, refuting the
claim that `hash_input` and `hash_bundle` compute the same function. -/
theorem C6_hash_bundle_counterexample :
    hash_input (.obj [(strOf "a", .num 1)]) ≠ hash_bundle (.obj [(strOf "a", .num 1)]) := by
  decide

/-- C8 (amended) — `validate_output` checks only the presence of the
three top-level keys, the presence of `value` and `confidence`, the
confidence range and the membership of `value` in `{0, 1}`; it inspects
neither the content of `sources` nor of `rationale`, so an empty
sources sequence and an empty rationale are accepted. -/
theorem C8_validator_ignores_sources_rationale (sources rationale : Json) (conf : Int)
    (h0 : 0 ≤ conf) (h1 : conf ≤ 1) :
    validate_output (.obj
      [(strOf "resolution", .obj [(strOf "value", .num 1), (strOf "confidence", .num conf)]),
       (strOf "sources", sources), (strOf "rationale", rationale)]) = some true := by
  have hc : (decide (0 ≤ conf) && decide (conf ≤ 1)) = true := by
    simp [h0, h1]
  have e1 : (strOf "value" == strOf "confidence") = false := by decide
  have e2 : (strOf "confidence" == strOf "confidence") = true := by decide
  have e3 : (strOf "value" == strOf "value") = true := by decide
  simp +decide [validate_output, hasKey, dictGet, List.find?, e1, e2, e3, hc]

/-- C8 witness: the concrete output with an empty sources sequence and
an empty rationale is accepted. -/
theorem C8_validator_ignores_sources_rationale_witness :
    (0 : Int) ≤ 1 ∧ (1 : Int) ≤ 1 ∧
    validate_output (.obj
      [(strOf "resolution", .obj [(strOf "value", .num 1), (strOf "confidence", .num 1)]),
       (strOf "sources", .arr []), (strOf "rationale", .str [])]) = some true :=
  ⟨by decide, by decide,
   C8_validator_ignores_sources_rationale (.arr []) (.str []) 1 (by decide) (by decide)⟩

/-- C8 counterexample: the claim says the validator rejects an output
whose sources sequence is empty or whose rationale is empty, but
`validate_output` returns `True` on exactly such an output. -/
theorem C8_validator_counterexample :
    validate_output (.obj
      [(strOf "resolution", .obj [(strOf "value", .num 1), (strOf "confidence", .num 1)]),
       (strOf "sources", .arr []), (strOf "rationale", .str [])]) = some true := by
  decide

/-- C10 — `create_evidence_bundle` returns exactly the five-field
structure with version `"1.0"`, the timestamp copied from
`metadata["timestamp"]` when present and silently `0` when absent, and
the input, output and metadata arguments embedded unchanged. -/
theorem C10_evidence_bundle_shape (inference_input inference_output : Json)
    (metadata : List (List Nat × Json)) :
    (∀ v, metadata.find? (fun kv => kv.1 == strOf "timestamp") = some v →
      create_evidence_bundle inference_input inference_output metadata =
        .obj [(strOf "version", .str (strOf "1.0")), (strOf "timestamp", v.2),
              (strOf "input", inference_input), (strOf "output", inference_output),
              (strOf "metadata", .obj metadata)]) ∧
    (metadata.find? (fun kv => kv.1 == strOf "timestamp") = none →
      create_evidence_bundle inference_input inference_output metadata =
        .obj [(strOf "version", .str (strOf "1.0")), (strOf "timestamp", .num 0),
              (strOf "input", inference_input), (strOf "output", inference_output),
              (strOf "metadata", .obj metadata)]) := by
  constructor
  · intro v hv
    unfold create_evidence_bundle dictGet
    rw [hv]
  · intro hv
    unfold create_evidence_bundle dictGet
    rw [hv]

/-- C10 witness: both timestamp cases evaluated on concrete metadata. -/
theorem C10_evidence_bundle_shape_witness :
    create_evidence_bundle .null (.bool true) [(strOf "timestamp", .num 7)] =
      .obj [(strOf "version", .str (strOf "1.0")), (strOf "timestamp", .num 7),
            (strOf "input", .null), (strOf "output", .bool true),
            (strOf "metadata", .obj [(strOf "timestamp", .num 7)])] ∧
    create_evidence_bundle .null (.bool true) [] =
      .obj [(strOf "version", .str (strOf "1.0")), (strOf "timestamp", .num 0),
            (strOf "input", .null), (strOf "output", .bool true),
            (strOf "metadata", .obj [])] :=
  ⟨(C10_evidence_bundle_shape .null (.bool true) [(strOf "timestamp", .num 7)]).1
      (strOf "timestamp", .num 7) rfl,
   (C10_evidence_bundle_shape .null (.bool true) []).2 rfl⟩

/-- C2 — against the spec-modelled signature primitive: a signature
freshly produced by `sign_report` over a digest verifies under the same
generator's key; checking a different digest against that signature
returns false; and a signature string whose hex payload does not decode
returns false. `verify_signature` is a total function, modelling the
method's catch-all `except` that turns every failure into `False`. -/
theorem C2_sign_verify (k : Nat) (d d2 s : List Nat)
    (_hlen : d.length = 32) (hbytes : ∀ b ∈ d, b < 256) :
    verify_signature k d (sign_report k d) = true ∧
    (d2 ≠ d → verify_signature k d2 (sign_report k d) = false) ∧
    (bytesFromHex (s.drop 2) = none → verify_signature k d s = false) := by
  refine ⟨verify_sign_roundtrip k d hbytes, ?_, ?_⟩
  · intro hne
    unfold verify_signature sign_report
    have hdrop : (strOf "0x" ++ hexOfBytes (ecdsaSign k d)).drop 2 = hexOfBytes (ecdsaSign k d) :=
      rfl
    rw [hdrop, bytesFromHex_hexOfBytes _ (ecdsaSign_bytes_lt k d hbytes)]
    show ecdsaVerify k d2 (ecdsaSign k d) = false
    unfold ecdsaVerify ecdsaSign
    rw [beq_eq_false_iff_ne]
    intro heq
    exact hne (List.append_cancel_left heq).symm
  · intro hnone
    unfold verify_signature
    rw [hnone]

/-- C2 witness: a concrete 32-byte digest round-trips; a digest
differing in its first byte is rejected; the malformed signature
string `0xzz` is rejected. -/
theorem C2_sign_verify_witness :
    (List.replicate 32 0).length = 32 ∧ (∀ b ∈ List.replicate 32 0, b < 256) ∧
    ((1 : Nat) :: List.replicate 31 0) ≠ List.replicate 32 0 ∧
    bytesFromHex ((strOf "0xzz").drop 2) = none ∧
    verify_signature 5 (List.replicate 32 0) (sign_report 5 (List.replicate 32 0)) = true ∧
    verify_signature 5 ((1 : Nat) :: List.replicate 31 0)
      (sign_report 5 (List.replicate 32 0)) = false ∧
    verify_signature 5 (List.replicate 32 0) (strOf "0xzz") = false := by
  have h := C2_sign_verify 5 (List.replicate 32 0) ((1 : Nat) :: List.replicate 31 0)
    (strOf "0xzz") (by decide) (by decide)
  exact ⟨by decide, by decide, by decide, by decide, h.1, h.2.1 (by decide), h.2.2 (by decide)⟩

/-- C9 — every field the digest builder consumes is copied verbatim into
the proof `create_tee_proof` returns, and recomputing the digest from
the proof's own fields (together with the identity fields the proof
carries) yields exactly the digest the proof's signature verifies
against under the same generator. -/
theorem C9_proof_fields_recompute_digest (enclave_id enclave_pubkey mrenclave : List Nat)
    (k : Nat) (inference_input inference_output : Json) (blob_id blob_hash : List Nat)
    (timestamp : Nat) (nonce mrsigner : List Nat) (attTimestamp : Nat) :
    (create_tee_proof enclave_id enclave_pubkey mrenclave k inference_input inference_output
        blob_id blob_hash timestamp nonce mrsigner attTimestamp).h_in = hash_input inference_input ∧
    (create_tee_proof enclave_id enclave_pubkey mrenclave k inference_input inference_output
        blob_id blob_hash timestamp nonce mrsigner attTimestamp).h_out = hash_output inference_output ∧
    (create_tee_proof enclave_id enclave_pubkey mrenclave k inference_input inference_output
        blob_id blob_hash timestamp nonce mrsigner attTimestamp).blob_id = blob_id ∧
    (create_tee_proof enclave_id enclave_pubkey mrenclave k inference_input inference_output
        blob_id blob_hash timestamp nonce mrsigner attTimestamp).blob_hash = blob_hash ∧
    (create_tee_proof enclave_id enclave_pubkey mrenclave k inference_input inference_output
        blob_id blob_hash timestamp nonce mrsigner attTimestamp).timestamp = timestamp ∧
    (create_tee_proof enclave_id enclave_pubkey mrenclave k inference_input inference_output
        blob_id blob_hash timestamp nonce mrsigner attTimestamp).nonce = nonce ∧
    (create_tee_proof enclave_id enclave_pubkey mrenclave k inference_input inference_output
        blob_id blob_hash timestamp nonce mrsigner attTimestamp).enclave_id = enclave_id ∧
    (create_tee_proof enclave_id enclave_pubkey mrenclave k inference_input inference_output
        blob_id blob_hash timestamp nonce mrsigner attTimestamp).mrenclave = mrenclave ∧
    verify_signature k
      (create_report_digest
        (create_tee_proof enclave_id enclave_pubkey mrenclave k inference_input inference_output
          blob_id blob_hash timestamp nonce mrsigner attTimestamp).enclave_id
        (create_tee_proof enclave_id enclave_pubkey mrenclave k inference_input inference_output
          blob_id blob_hash timestamp nonce mrsigner attTimestamp).mrenclave
        (create_tee_proof enclave_id enclave_pubkey mrenclave k inference_input inference_output
          blob_id blob_hash timestamp nonce mrsigner attTimestamp).h_in
        (create_tee_proof enclave_id enclave_pubkey mrenclave k inference_input inference_output
          blob_id blob_hash timestamp nonce mrsigner attTimestamp).h_out
        (create_tee_proof enclave_id enclave_pubkey mrenclave k inference_input inference_output
          blob_id blob_hash timestamp nonce mrsigner attTimestamp).blob_id
        (create_tee_proof enclave_id enclave_pubkey mrenclave k inference_input inference_output
          blob_id blob_hash timestamp nonce mrsigner attTimestamp).blob_hash
        (create_tee_proof enclave_id enclave_pubkey mrenclave k inference_input inference_output
          blob_id blob_hash timestamp nonce mrsigner attTimestamp).timestamp
        (create_tee_proof enclave_id enclave_pubkey mrenclave k inference_input inference_output
          blob_id blob_hash timestamp nonce mrsigner attTimestamp).nonce)
      (create_tee_proof enclave_id enclave_pubkey mrenclave k inference_input inference_output
        blob_id blob_hash timestamp nonce mrsigner attTimestamp).sig = true := by
  refine ⟨rfl, rfl, rfl, rfl, rfl, rfl, rfl, rfl, ?_⟩
  show verify_signature k
    (create_report_digest enclave_id mrenclave (hash_input inference_input)
      (hash_output inference_output) blob_id blob_hash timestamp nonce)
    (sign_report k
      (create_report_digest enclave_id mrenclave (hash_input inference_input)
        (hash_output inference_output) blob_id blob_hash timestamp nonce)) = true
  apply verify_sign_roundtrip
  unfold create_report_digest
  exact sha256_bytes_lt _

/-! ### Parser round trip -/

/-- Every value has positive size. -/
theorem jsize_pos (j : Json) : 1 ≤ jsize j := by
  cases j <;> simp only [jsize] <;> omega

/-- Indentation is whitespace. -/
theorem ind2_ws (k : Nat) : ∀ c ∈ ind2 k, isWsChar c = true := by
  intro c hc
  unfold ind2 at hc
  rw [List.eq_of_mem_replicate hc]
  decide

/-- Indentation is skipped. -/
theorem skipWs_ind2 (k : Nat) (s : List Nat) : skipWs (ind2 k ++ s) = skipWs s :=
  skipWs_ws_append _ (ind2_ws k) s

/-- A separator-joined nonempty list starts with its first part. -/
theorem joinSep_cons (sep p : List Nat) (ps : List (List Nat)) :
    ∃ u, joinSep sep (p :: ps) = p ++ u := by
  cases ps with
  | nil => exact ⟨[], by simp [joinSep]⟩
  | cons q qs => exact ⟨sep ++ joinSep sep (q :: qs), rfl⟩

/-- A decimal rendering starts with a digit. -/
theorem natDec_head (n : Nat) : ∃ d0 ds, natDec n = d0 :: ds ∧ digitB d0 = true := by
  cases hd : natDec n with
  | nil => exact absurd hd (natDec_ne_nil n)
  | cons d0 ds =>
    refine ⟨d0, ds, rfl, ?_⟩
    have hm : d0 ∈ natDec n := by rw [hd]; simp
    exact natDecAux_digitB (n + 1) n d0 hm

/-- Digit characters are the ASCII digits. -/
theorem digitB_bounds (c : Nat) (h : digitB c = true) : 48 ≤ c ∧ c ≤ 57 := by
  simpa [digitB, Bool.and_eq_true, decide_eq_true_eq] using h

/-- A character that is none of the four whitespace code points is not
whitespace. -/
theorem isWsChar_false (c : Nat) (h1 : ¬c = 32) (h2 : ¬c = 9) (h3 : ¬c = 10) (h4 : ¬c = 13) :
    isWsChar c = false := by
  simp [isWsChar]
  omega

/-- The pretty serialization of any value starts with a non-whitespace
character that closes no container. -/
theorem serP_head (d : Nat) (j : Json) : ∃ c t, serP d j = c :: t ∧ isWsChar c = false ∧
    ¬c = 93 ∧ ¬c = 125 := by
  cases j with
  | null => exact ⟨110, _, rfl, by decide, by decide, by decide⟩
  | bool b =>
    cases b with
    | true => exact ⟨116, _, rfl, by decide, by decide, by decide⟩
    | false => exact ⟨102, _, rfl, by decide, by decide, by decide⟩
  | num n =>
    cases n with
    | ofNat m =>
      obtain ⟨d0, ds, hd, hdig⟩ := natDec_head m
      have hb := digitB_bounds d0 hdig
      refine ⟨d0, ds, ?_, ?_, by omega, by omega⟩
      · show natDec m = d0 :: ds
        exact hd
      · exact isWsChar_false d0 (by omega) (by omega) (by omega) (by omega)
    | negSucc m => exact ⟨45, _, rfl, by decide, by decide, by decide⟩
  | str s => exact ⟨34, _, rfl, by decide, by decide, by decide⟩
  | arr xs =>
    cases xs with
    | nil => exact ⟨91, _, rfl, by decide, by decide, by decide⟩
    | cons x xs => exact ⟨91, _, rfl, by decide, by decide, by decide⟩
  | obj kvs =>
    cases kvs with
    | nil => exact ⟨123, _, rfl, by decide, by decide, by decide⟩
    | cons kv kvs => exact ⟨123, _, rfl, by decide, by decide, by decide⟩

/-- Every character escape is nonempty. -/
theorem escapeChar_length_pos (c : Nat) : 0 < (escapeChar c).length := by
  unfold escapeChar
  by_cases g1 : c = 34
  · rw [if_pos g1]; simp
  rw [if_neg g1]
  by_cases g2 : c = 92
  · rw [if_pos g2]; simp
  rw [if_neg g2]
  by_cases g3 : c = 8
  · rw [if_pos g3]; simp
  rw [if_neg g3]
  by_cases g4 : c = 12
  · rw [if_pos g4]; simp
  rw [if_neg g4]
  by_cases g5 : c = 10
  · rw [if_pos g5]; simp
  rw [if_neg g5]
  by_cases g6 : c = 13
  · rw [if_pos g6]; simp
  rw [if_neg g6]
  by_cases g7 : c = 9
  · rw [if_pos g7]; simp
  rw [if_neg g7]
  by_cases g8 : c < 32
  · rw [if_pos g8]; simp
  rw [if_neg g8]
  by_cases g9 : c < 127
  · rw [if_pos g9]; simp
  rw [if_neg g9]
  by_cases g10 : c < 65536
  · rw [if_pos g10]; simp
  rw [if_neg g10]
  simp

/-- The escape rendering of a string is at least as long as the
string. -/
theorem length_le_flatMap_escape : ∀ s : List Nat,
    s.length ≤ (s.flatMap escapeChar).length := by
  intro s
  induction s with
  | nil => simp
  | cons c cs ih =>
    have := escapeChar_length_pos c
    simp only [List.flatMap_cons, List.length_append, List.length_cons]
    omega

/-- The newline-plus-indentation separator prefix is whitespace. -/
theorem ws_10_ind2 (k : Nat) : ∀ c ∈ 10 :: ind2 k, isWsChar c = true := by
  intro c hc
  rcases List.mem_cons.mp hc with rfl | hc
  · decide
  · exact ind2_ws k c hc

mutual
/-- Round trip of the pretty serializer through the value parser: the
serialization of a well-formed value, followed by any continuation that
does not start with a digit, parses back to the value, for any fuel at
least the value's size. -/
theorem parseV_serP : ∀ (fuel d : Nat) (j : Json) (rest : List Nat),
    wfJ j = true → jsize j ≤ fuel → noLeadDigit rest = true →
    parseV fuel (serP d j ++ rest) = some (j, rest)
  | 0, _, j, _, _, hsz, _ => absurd hsz (by have := jsize_pos j; omega)
  | fuel + 1, d, j, rest, hwf, hsz, hnl => by
    cases j with
    | null =>
      show parseV (fuel + 1) (110 :: 117 :: 108 :: 108 :: rest) = some (.null, rest)
      simp [parseV, skipWs, isWsChar]
    | bool b =>
      cases b with
      | true =>
        show parseV (fuel + 1) (116 :: 114 :: 117 :: 101 :: rest) = some (.bool true, rest)
        simp [parseV, skipWs, isWsChar]
      | false =>
        show parseV (fuel + 1) (102 :: 97 :: 108 :: 115 :: 101 :: rest) =
          some (.bool false, rest)
        simp [parseV, skipWs, isWsChar]
    | num n =>
      cases n with
      | ofNat m =>
        obtain ⟨d0, ds, hd, hdig⟩ := natDec_head m
        have hb := digitB_bounds d0 hdig
        show parseV (fuel + 1) (natDec m ++ rest) = some (.num (Int.ofNat m), rest)
        rw [hd]
        show parseV (fuel + 1) (d0 :: (ds ++ rest)) = some (.num (Int.ofNat m), rest)
        simp only [parseV]
        rw [skipWs_cons_nonws (isWsChar_false d0 (by omega) (by omega) (by omega) (by omega))]
        have hp : parseNat (d0 :: (ds ++ rest)) = some (m, rest) := by
          rw [show d0 :: (ds ++ rest) = natDec m ++ rest by rw [hd]; rfl]
          exact parseNat_natDec m rest hnl
        simp only [eq_false (show ¬d0 = 110 by omega), eq_false (show ¬d0 = 116 by omega),
          eq_false (show ¬d0 = 102 by omega), eq_false (show ¬d0 = 34 by omega),
          eq_false (show ¬d0 = 91 by omega), eq_false (show ¬d0 = 123 by omega),
          eq_false (show ¬d0 = 45 by omega), if_false, hdig, if_true, hp]
        rfl
      | negSucc m =>
        show parseV (fuel + 1) (45 :: (natDec (m + 1) ++ rest)) =
          some (.num (Int.negSucc m), rest)
        simp only [parseV]
        rw [skipWs_cons_nonws (by decide)]
        have hp := parseNat_natDec (m + 1) rest hnl
        simp [hp]
        rw [Int.negSucc_eq]
        ring
    | str s =>
      have hsc : s.all scalarOK = true := by simpa [wfJ] using hwf
      rw [show serP d (.str s) ++ rest = 34 :: (s.flatMap escapeChar ++ (34 :: rest)) by
        simp [serP, escapeString, List.append_assoc]]
      have hlen : s.length < (s.flatMap escapeChar ++ (34 :: rest)).length + 1 := by
        have := length_le_flatMap_escape s
        simp only [List.length_append, List.length_cons]
        omega
      have hX := parseStrChars_escape s (s.flatMap escapeChar ++ (34 :: rest)).length hsc
        hlen rest
      simp only [parseV]
      rw [skipWs_cons_nonws (by decide)]
      simp only [eq_false (by decide : ¬(34 : Nat) = 110),
        eq_false (by decide : ¬(34 : Nat) = 116), eq_false (by decide : ¬(34 : Nat) = 102),
        eq_true (show (34 : Nat) = 34 from rfl), if_false, if_true, hX]
    | arr xs =>
      cases xs with
      | nil =>
        show parseV (fuel + 1) (91 :: 93 :: rest) = some (.arr [], rest)
        simp [parseV, skipWs, isWsChar]
      | cons x xs =>
        have hwf' : wfL (x :: xs) = true := by simpa [wfJ] using hwf
        have hsz' : jsizeL (x :: xs) ≤ fuel := by simp only [jsize] at hsz; omega
        rw [show serP d (.arr (x :: xs)) ++ rest =
            91 :: (10 :: (ind2 (d + 1) ++
              (joinSep (44 :: 10 :: ind2 (d + 1)) (serPList (d + 1) (x :: xs)) ++
               (10 :: (ind2 d ++ 93 :: rest))))) from by
          simp [serP, List.append_assoc]]
        obtain ⟨c0, t0, hc0, hws0, h93, h125⟩ := serP_head (d + 1) x
        obtain ⟨u, hu⟩ := joinSep_cons (44 :: 10 :: ind2 (d + 1)) (serP (d + 1) x)
          (serPList (d + 1) xs)
        have hskip : skipWs (10 :: (ind2 (d + 1) ++
            (joinSep (44 :: 10 :: ind2 (d + 1)) (serPList (d + 1) (x :: xs)) ++
             (10 :: (ind2 d ++ 93 :: rest))))) =
            c0 :: ((t0 ++ u) ++ (10 :: (ind2 d ++ 93 :: rest))) := by
          rw [skipWs_cons_ws (by decide), skipWs_ind2]
          rw [show serPList (d + 1) (x :: xs) = serP (d + 1) x :: serPList (d + 1) xs from rfl,
            hu, hc0]
          show skipWs (c0 :: ((t0 ++ u) ++ (10 :: (ind2 d ++ 93 :: rest)))) = _
          rw [skipWs_cons_nonws hws0]
        have hrec : parseItems fuel (10 :: (ind2 (d + 1) ++
            (joinSep (44 :: 10 :: ind2 (d + 1)) (serPList (d + 1) (x :: xs)) ++
             (10 :: (ind2 d ++ 93 :: rest))))) = some (x :: xs, rest) :=
          parseItems_serP fuel d x xs (10 :: ind2 (d + 1)) rest
            (ws_10_ind2 (d + 1)) hwf' hsz' hnl
        simp only [parseV]
        rw [skipWs_cons_nonws (by decide)]
        simp only [eq_false (by decide : ¬(91 : Nat) = 110),
          eq_false (by decide : ¬(91 : Nat) = 116), eq_false (by decide : ¬(91 : Nat) = 102),
          eq_false (by decide : ¬(91 : Nat) = 34), eq_true (show (91 : Nat) = 91 from rfl),
          if_false, if_true, hskip, eq_false h93, hrec]
    | obj kvs =>
      cases kvs with
      | nil =>
        show parseV (fuel + 1) (123 :: 125 :: rest) = some (.obj [], rest)
        simp [parseV, skipWs, isWsChar]
      | cons kv kvs =>
        have hwf' : wfKV (kv :: kvs) = true := by
          simp only [wfJ, Bool.and_eq_true] at hwf
          exact hwf.2
        have hsz' : jsizeKV (kv :: kvs) ≤ fuel := by simp only [jsize] at hsz; omega
        rw [show serP d (.obj (kv :: kvs)) ++ rest =
            123 :: (10 :: (ind2 (d + 1) ++
              (joinSep (44 :: 10 :: ind2 (d + 1)) (serPEntries (d + 1) (kv :: kvs)) ++
               (10 :: (ind2 d ++ 125 :: rest))))) from by
          simp [serP, List.append_assoc]]
        obtain ⟨u, hu⟩ := joinSep_cons (44 :: 10 :: ind2 (d + 1))
          (escapeString kv.1 ++ (strOf ": " ++ serP (d + 1) kv.2)) (serPEntries (d + 1) kvs)
        have hskip : skipWs (10 :: (ind2 (d + 1) ++
            (joinSep (44 :: 10 :: ind2 (d + 1)) (serPEntries (d + 1) (kv :: kvs)) ++
             (10 :: (ind2 d ++ 125 :: rest))))) =
            34 :: ((((kv.1.flatMap escapeChar ++ [34]) ++ (strOf ": " ++ serP (d + 1) kv.2))
              ++ u) ++ (10 :: (ind2 d ++ 125 :: rest))) := by
          rw [skipWs_cons_ws (by decide), skipWs_ind2]
          rw [show serPEntries (d + 1) (kv :: kvs) =
            (escapeString kv.1 ++ (strOf ": " ++ serP (d + 1) kv.2)) :: serPEntries (d + 1) kvs
              from rfl, hu]
          show skipWs (34 :: ((((kv.1.flatMap escapeChar ++ [34]) ++
            (strOf ": " ++ serP (d + 1) kv.2)) ++ u) ++ (10 :: (ind2 d ++ 125 :: rest)))) = _
          rw [skipWs_cons_nonws (by decide)]
        have hrec : parseMembers fuel (10 :: (ind2 (d + 1) ++
            (joinSep (44 :: 10 :: ind2 (d + 1)) (serPEntries (d + 1) (kv :: kvs)) ++
             (10 :: (ind2 d ++ 125 :: rest))))) = some (kv :: kvs, rest) :=
          parseMembers_serP fuel d kv kvs (10 :: ind2 (d + 1)) rest
            (ws_10_ind2 (d + 1)) hwf' hsz' hnl
        simp only [parseV]
        rw [skipWs_cons_nonws (by decide)]
        simp only [eq_false (by decide : ¬(123 : Nat) = 110),
          eq_false (by decide : ¬(123 : Nat) = 116), eq_false (by decide : ¬(123 : Nat) = 102),
          eq_false (by decide : ¬(123 : Nat) = 34), eq_false (by decide : ¬(123 : Nat) = 91),
          eq_true (show (123 : Nat) = 123 from rfl), if_false, if_true, hskip,
          eq_false (by decide : ¬(34 : Nat) = 125), hrec]

/-- Round trip for the items of a nonempty array: the joined item
serializations, the closing newline-indentation-bracket, and the
continuation parse back to the item list, under any all-whitespace
prefix. -/
theorem parseItems_serP : ∀ (fuel d : Nat) (x : Json) (xs : List Json) (w rest : List Nat),
    (∀ c ∈ w, isWsChar c = true) → wfL (x :: xs) = true → jsizeL (x :: xs) ≤ fuel →
    noLeadDigit rest = true →
    parseItems fuel (w ++ (joinSep (44 :: 10 :: ind2 (d + 1)) (serPList (d + 1) (x :: xs)) ++
      (10 :: (ind2 d ++ 93 :: rest)))) = some (x :: xs, rest)
  | 0, _, x, xs, _, _, _, _, hsz, _ => absurd hsz (by simp only [jsizeL]; omega)
  | fuel + 1, d, x, xs, w, rest, hw, hwf, hsz, hnl => by
    have hwf1 : wfJ x = true := by
      simp only [wfL, Bool.and_eq_true] at hwf
      exact hwf.1
    have hwf2 : wfL xs = true := by
      simp only [wfL, Bool.and_eq_true] at hwf
      exact hwf.2
    have hszx : jsize x ≤ fuel := by simp only [jsizeL] at hsz; omega
    cases xs with
    | nil =>
      rw [show joinSep (44 :: 10 :: ind2 (d + 1)) (serPList (d + 1) [x]) = serP (d + 1) x
        from by simp [serPList, joinSep]]
      have hv : parseV fuel (w ++ (serP (d + 1) x ++ (10 :: (ind2 d ++ 93 :: rest)))) =
          some (x, 10 :: (ind2 d ++ 93 :: rest)) := by
        rw [parseV_congr fuel (skipWs_ws_append w hw _)]
        exact parseV_serP fuel (d + 1) x _ hwf1 hszx rfl
      have hskip : skipWs (10 :: (ind2 d ++ 93 :: rest)) = 93 :: rest := by
        rw [skipWs_cons_ws (by decide), skipWs_ind2, skipWs_cons_nonws (by decide)]
      simp only [parseItems]
      simp only [hv, hskip]
    | cons x2 xs2 =>
      have hsz2 : jsizeL (x2 :: xs2) ≤ fuel := by
        have := jsize_pos x
        simp only [jsizeL] at hsz ⊢
        omega
      rw [show joinSep (44 :: 10 :: ind2 (d + 1)) (serPList (d + 1) (x :: x2 :: xs2)) ++
          (10 :: (ind2 d ++ 93 :: rest)) =
          serP (d + 1) x ++ (44 :: (10 :: (ind2 (d + 1) ++
            (joinSep (44 :: 10 :: ind2 (d + 1)) (serPList (d + 1) (x2 :: xs2)) ++
             (10 :: (ind2 d ++ 93 :: rest)))))) from by
        simp [serPList, joinSep, List.append_assoc]]
      have hv : parseV fuel (w ++ (serP (d + 1) x ++ (44 :: (10 :: (ind2 (d + 1) ++
          (joinSep (44 :: 10 :: ind2 (d + 1)) (serPList (d + 1) (x2 :: xs2)) ++
           (10 :: (ind2 d ++ 93 :: rest)))))))) =
          some (x, 44 :: (10 :: (ind2 (d + 1) ++
            (joinSep (44 :: 10 :: ind2 (d + 1)) (serPList (d + 1) (x2 :: xs2)) ++
             (10 :: (ind2 d ++ 93 :: rest)))))) := by
        rw [parseV_congr fuel (skipWs_ws_append w hw _)]
        exact parseV_serP fuel (d + 1) x _ hwf1 hszx rfl
      have hrec : parseItems fuel (10 :: (ind2 (d + 1) ++
          (joinSep (44 :: 10 :: ind2 (d + 1)) (serPList (d + 1) (x2 :: xs2)) ++
           (10 :: (ind2 d ++ 93 :: rest))))) = some (x2 :: xs2, rest) :=
        parseItems_serP fuel d x2 xs2 (10 :: ind2 (d + 1)) rest
          (ws_10_ind2 (d + 1)) hwf2 hsz2 hnl
      simp only [parseItems]
      simp only [hv, skipWs_cons_nonws (show isWsChar 44 = false by decide), hrec]

/-- Round trip for the members of a nonempty mapping: the joined
`"key": value` serializations, the closing newline-indentation-brace,
and the continuation parse back to the entry list, under any
all-whitespace prefix. -/
theorem parseMembers_serP : ∀ (fuel d : Nat) (kv : List Nat × Json)
    (kvs : List (List Nat × Json)) (w rest : List Nat),
    (∀ c ∈ w, isWsChar c = true) → wfKV (kv :: kvs) = true → jsizeKV (kv :: kvs) ≤ fuel →
    noLeadDigit rest = true →
    parseMembers fuel (w ++ (joinSep (44 :: 10 :: ind2 (d + 1))
      (serPEntries (d + 1) (kv :: kvs)) ++
      (10 :: (ind2 d ++ 125 :: rest)))) = some (kv :: kvs, rest)
  | 0, _, kv, kvs, _, _, _, _, hsz, _ => absurd hsz (by simp only [jsizeKV]; omega)
  | fuel + 1, d, kv, kvs, w, rest, hw, hwf, hsz, hnl => by
    obtain ⟨k, v⟩ := kv
    have hk : k.all scalarOK = true := by
      simp only [wfKV, Bool.and_eq_true] at hwf
      exact hwf.1.1
    have hv' : wfJ v = true := by
      simp only [wfKV, Bool.and_eq_true] at hwf
      exact hwf.1.2
    have hkvs : wfKV kvs = true := by
      simp only [wfKV, Bool.and_eq_true] at hwf
      exact hwf.2
    have hszv : jsize v ≤ fuel := by simp only [jsizeKV] at hsz; omega
    cases kvs with
    | nil =>
      rw [show w ++ (joinSep (44 :: 10 :: ind2 (d + 1)) (serPEntries (d + 1) [(k, v)]) ++
          (10 :: (ind2 d ++ 125 :: rest))) =
          w ++ (34 :: (k.flatMap escapeChar ++ (34 :: (58 :: (32 :: (serP (d + 1) v ++
            (10 :: (ind2 d ++ 125 :: rest)))))))) from by
        simp [serPEntries, joinSep, escapeString, strOf, List.append_assoc]]
      have hskip : skipWs (w ++ (34 :: (k.flatMap escapeChar ++ (34 :: (58 :: (32 ::
          (serP (d + 1) v ++ (10 :: (ind2 d ++ 125 :: rest))))))))) =
          34 :: (k.flatMap escapeChar ++ (34 :: (58 :: (32 :: (serP (d + 1) v ++
            (10 :: (ind2 d ++ 125 :: rest))))))) := by
        rw [skipWs_ws_append w hw, skipWs_cons_nonws (by decide)]
      have hlen : k.length < (k.flatMap escapeChar ++ (34 :: (58 :: (32 :: (serP (d + 1) v ++
          (10 :: (ind2 d ++ 125 :: rest))))))).length + 1 := by
        have := length_le_flatMap_escape k
        simp only [List.length_append, List.length_cons]
        omega
      have hstr := parseStrChars_escape k (k.flatMap escapeChar ++ (34 :: (58 :: (32 ::
        (serP (d + 1) v ++ (10 :: (ind2 d ++ 125 :: rest))))))).length hk hlen
        (58 :: (32 :: (serP (d + 1) v ++ (10 :: (ind2 d ++ 125 :: rest)))))
      have hpv : parseV fuel (32 :: (serP (d + 1) v ++ (10 :: (ind2 d ++ 125 :: rest)))) =
          some (v, 10 :: (ind2 d ++ 125 :: rest)) := by
        rw [parseV_congr fuel (skipWs_cons_ws (by decide) _)]
        exact parseV_serP fuel (d + 1) v _ hv' hszv rfl
      have hskipZ : skipWs (10 :: (ind2 d ++ 125 :: rest)) = 125 :: rest := by
        rw [skipWs_cons_ws (by decide), skipWs_ind2, skipWs_cons_nonws (by decide)]
      simp only [parseMembers]
      rw [hskip]
      simp only [hstr, skipWs_cons_nonws (show isWsChar 58 = false by decide), hpv, hskipZ]
    | cons kv2 kvs2 =>
      have hsz2 : jsizeKV (kv2 :: kvs2) ≤ fuel := by
        have := jsize_pos v
        simp only [jsizeKV] at hsz ⊢
        omega
      rw [show w ++ (joinSep (44 :: 10 :: ind2 (d + 1))
          (serPEntries (d + 1) ((k, v) :: kv2 :: kvs2)) ++
          (10 :: (ind2 d ++ 125 :: rest))) =
          w ++ (34 :: (k.flatMap escapeChar ++ (34 :: (58 :: (32 :: (serP (d + 1) v ++
            (44 :: (10 :: (ind2 (d + 1) ++
              (joinSep (44 :: 10 :: ind2 (d + 1)) (serPEntries (d + 1) (kv2 :: kvs2)) ++
               (10 :: (ind2 d ++ 125 :: rest)))))))))))) from by
        simp [serPEntries, joinSep, escapeString, strOf, List.append_assoc]]
      have hskip : skipWs (w ++ (34 :: (k.flatMap escapeChar ++ (34 :: (58 :: (32 ::
          (serP (d + 1) v ++ (44 :: (10 :: (ind2 (d + 1) ++
            (joinSep (44 :: 10 :: ind2 (d + 1)) (serPEntries (d + 1) (kv2 :: kvs2)) ++
             (10 :: (ind2 d ++ 125 :: rest))))))))))))) =
          34 :: (k.flatMap escapeChar ++ (34 :: (58 :: (32 :: (serP (d + 1) v ++
            (44 :: (10 :: (ind2 (d + 1) ++
              (joinSep (44 :: 10 :: ind2 (d + 1)) (serPEntries (d + 1) (kv2 :: kvs2)) ++
               (10 :: (ind2 d ++ 125 :: rest))))))))))) := by
        rw [skipWs_ws_append w hw, skipWs_cons_nonws (by decide)]
      have hlen : k.length < (k.flatMap escapeChar ++ (34 :: (58 :: (32 :: (serP (d + 1) v ++
          (44 :: (10 :: (ind2 (d + 1) ++
            (joinSep (44 :: 10 :: ind2 (d + 1)) (serPEntries (d + 1) (kv2 :: kvs2)) ++
             (10 :: (ind2 d ++ 125 :: rest))))))))))).length + 1 := by
        have := length_le_flatMap_escape k
        simp only [List.length_append, List.length_cons]
        omega
      have hstr := parseStrChars_escape k (k.flatMap escapeChar ++ (34 :: (58 :: (32 ::
        (serP (d + 1) v ++ (44 :: (10 :: (ind2 (d + 1) ++
          (joinSep (44 :: 10 :: ind2 (d + 1)) (serPEntries (d + 1) (kv2 :: kvs2)) ++
           (10 :: (ind2 d ++ 125 :: rest))))))))))).length hk hlen
        (58 :: (32 :: (serP (d + 1) v ++ (44 :: (10 :: (ind2 (d + 1) ++
          (joinSep (44 :: 10 :: ind2 (d + 1)) (serPEntries (d + 1) (kv2 :: kvs2)) ++
           (10 :: (ind2 d ++ 125 :: rest)))))))))
      have hpv : parseV fuel (32 :: (serP (d + 1) v ++ (44 :: (10 :: (ind2 (d + 1) ++
          (joinSep (44 :: 10 :: ind2 (d + 1)) (serPEntries (d + 1) (kv2 :: kvs2)) ++
           (10 :: (ind2 d ++ 125 :: rest)))))))) =
          some (v, 44 :: (10 :: (ind2 (d + 1) ++
            (joinSep (44 :: 10 :: ind2 (d + 1)) (serPEntries (d + 1) (kv2 :: kvs2)) ++
             (10 :: (ind2 d ++ 125 :: rest)))))) := by
        rw [parseV_congr fuel (skipWs_cons_ws (by decide) _)]
        exact parseV_serP fuel (d + 1) v _ hv' hszv rfl
      have hrec : parseMembers fuel (10 :: (ind2 (d + 1) ++
          (joinSep (44 :: 10 :: ind2 (d + 1)) (serPEntries (d + 1) (kv2 :: kvs2)) ++
           (10 :: (ind2 d ++ 125 :: rest))))) = some (kv2 :: kvs2, rest) :=
        parseMembers_serP fuel d kv2 kvs2 (10 :: ind2 (d + 1)) rest
          (ws_10_ind2 (d + 1)) hkvs hsz2 hnl
      simp only [parseMembers]
      rw [hskip]
      simp only [hstr, skipWs_cons_nonws (show isWsChar 58 = false by decide), hpv,
        skipWs_cons_nonws (show isWsChar 44 = false by decide), hrec]
end

mutual
/-- A value's size is at most its pretty-printed length. -/
theorem jsize_le_serP (d : Nat) (j : Json) : jsize j ≤ (serP d j).length := by
  cases j with
  | null =>
    show (1 : Nat) ≤ (strOf "null").length
    decide
  | bool b =>
    cases b with
    | true =>
      show (1 : Nat) ≤ (strOf "true").length
      decide
    | false =>
      show (1 : Nat) ≤ (strOf "false").length
      decide
  | num n =>
    cases n with
    | ofNat m =>
      obtain ⟨d0, ds, hd, _⟩ := natDec_head m
      show jsize (.num (Int.ofNat m)) ≤ (natDec m).length
      rw [hd]
      simp [jsize]
    | negSucc m =>
      show jsize (.num (Int.negSucc m)) ≤ (45 :: natDec (m + 1)).length
      simp [jsize]
  | str s =>
    show jsize (.str s) ≤ (34 :: (s.flatMap escapeChar ++ [34])).length
    simp [jsize]
  | arr xs =>
    cases xs with
    | nil =>
      show (1 : Nat) ≤ (strOf "[]").length
      decide
    | cons x xs =>
      have h := jsizeL_le_joinSep (d + 1) (x :: xs)
      show jsize (.arr (x :: xs)) ≤ (91 :: 10 :: (ind2 (d + 1) ++
        joinSep (44 :: 10 :: ind2 (d + 1)) (serPList (d + 1) (x :: xs)) ++
        (10 :: ind2 d ++ [93]))).length
      simp only [jsize, List.length_cons, List.length_append]
      omega
  | obj kvs =>
    cases kvs with
    | nil =>
      show (1 : Nat) ≤ (strOf "\x7b\x7d").length
      decide
    | cons kv kvs =>
      have h := jsizeKV_le_joinSep (d + 1) (kv :: kvs)
      show jsize (.obj (kv :: kvs)) ≤ (123 :: 10 :: (ind2 (d + 1) ++
        joinSep (44 :: 10 :: ind2 (d + 1)) (serPEntries (d + 1) (kv :: kvs)) ++
        (10 :: ind2 d ++ [125]))).length
      simp only [jsize, List.length_cons, List.length_append]
      omega

/-- The size of an item list is within one of the joined serialization
length. -/
theorem jsizeL_le_joinSep (d : Nat) (xs : List Json) :
    jsizeL xs ≤ (joinSep (44 :: 10 :: ind2 d) (serPList d xs)).length + 1 := by
  cases xs with
  | nil => simp [jsizeL, serPList, joinSep]
  | cons x xs =>
    cases xs with
    | nil =>
      have h := jsize_le_serP d x
      show jsizeL [x] ≤ (serP d x).length + 1
      simp only [jsizeL]
      omega
    | cons x2 xs2 =>
      have h1 := jsize_le_serP d x
      have h2 := jsizeL_le_joinSep d (x2 :: xs2)
      show jsizeL (x :: x2 :: xs2) ≤ (serP d x ++ ((44 :: 10 :: ind2 d) ++
        joinSep (44 :: 10 :: ind2 d) (serPList d (x2 :: xs2)))).length + 1
      simp only [jsizeL, List.length_append, List.length_cons] at h2 ⊢
      omega

/-- The size of an entry list is within one of the joined serialization
length. -/
theorem jsizeKV_le_joinSep (d : Nat) (kvs : List (List Nat × Json)) :
    jsizeKV kvs ≤ (joinSep (44 :: 10 :: ind2 d) (serPEntries d kvs)).length + 1 := by
  cases kvs with
  | nil => simp [jsizeKV, serPEntries, joinSep]
  | cons kv kvs =>
    cases kvs with
    | nil =>
      have h := jsize_le_serP d kv.2
      show jsizeKV [kv] ≤ (escapeString kv.1 ++ (strOf ": " ++ serP d kv.2)).length + 1
      simp only [jsizeKV, List.length_append]
      omega
    | cons kv2 kvs2 =>
      have h1 := jsize_le_serP d kv.2
      have h2 := jsizeKV_le_joinSep d (kv2 :: kvs2)
      show jsizeKV (kv :: kv2 :: kvs2) ≤
        ((escapeString kv.1 ++ (strOf ": " ++ serP d kv.2)) ++ ((44 :: 10 :: ind2 d) ++
          joinSep (44 :: 10 :: ind2 d) (serPEntries d (kv2 :: kvs2)))).length + 1
      simp only [jsizeKV, List.length_append, List.length_cons] at h2 ⊢
      omega
end

/-- `json.loads` undoes `json.dumps(..., indent=2)` on any well-formed
value. -/
theorem json_loads_dumpsIndent2 (j : Json) (hwf : wfJ j = true) :
    json_loads (dumpsIndent2 j) = some j := by
  unfold json_loads dumpsIndent2
  have hlen : jsize j ≤ (serP 0 j).length + 1 := by
    have := jsize_le_serP 0 j
    omega
  have h := parseV_serP ((serP 0 j).length + 1) 0 j [] hwf hlen rfl
  rw [List.append_nil] at h
  rw [h]
  rfl

/-- Decryption inverts encryption: any encrypted evidence package that
`encrypt_evidence` produces decrypts back to the original well-formed
evidence value, with the same configuration and market id. -/
theorem decrypt_encrypt (cfg : SealConfig) (E : Json) (market_id : List Nat)
    (hwf : wfJ E = true) (enc : EncryptedEvidence)
    (henc : encrypt_evidence cfg E market_id = some enc) :
    decrypt_evidence cfg enc.encrypted_blob market_id = .ok E := by
  unfold encrypt_evidence at henc
  cases hcs : create_public_summary E market_id with
  | none =>
    rw [hcs] at henc
    exact absurd henc (by simp)
  | some summary =>
    rw [hcs] at henc
    simp only [Option.some.injEq] at henc
    rw [← henc]
    show decrypt_evidence cfg
      (simulate_seal_encryption cfg (utf8Encode (dumpsIndent2 E)) market_id) market_id = .ok E
    unfold decrypt_evidence simulate_seal_encryption
    rw [startsWithL_append, if_pos rfl, drop_header, xorWithKey_involution]
    have hdec : utf8Decode (utf8Encode (dumpsIndent2 E)) = some (dumpsIndent2 E) :=
      utf8Decode_encode _ (fun c hc => by
        have := serP_ascii 0 E c hc
        omega)
    have hjl := json_loads_dumpsIndent2 E hwf
    simp only [hdec, hjl]

/-- C3 (amended) — the encrypt/decrypt round trip holds for every
well-formed JSON evidence mapping whose `tee_attestation` entry (taken
as `{}` when absent) is itself a mapping: encryption then succeeds, and
decrypting the produced blob with the same configuration and market id
returns exactly the original evidence. The added hypothesis is needed
because `encrypt_evidence` first builds the public summary, and
`_create_public_summary` raises an `AttributeError` on evidence whose
`tee_attestation` value is not a mapping, so such JSON-representable
evidence never yields a blob to decrypt. -/
theorem C3_encrypt_decrypt_roundtrip (cfg : SealConfig) (kvs tkvs : List (List Nat × Json))
    (market_id : List Nat) (hwf : wfJ (.obj kvs) = true)
    (ht : dictGet kvs (strOf "tee_attestation") (.obj []) = .obj tkvs) :
    ∃ enc, encrypt_evidence cfg (.obj kvs) market_id = some enc ∧
      decrypt_evidence cfg enc.encrypted_blob market_id = .ok (.obj kvs) := by
  have hcs : ∃ s, create_public_summary (.obj kvs) market_id = some s := by
    simp only [create_public_summary, ht]
    exact ⟨_, rfl⟩
  obtain ⟨s, hs⟩ := hcs
  cases henc : encrypt_evidence cfg (.obj kvs) market_id with
  | none =>
    exfalso
    unfold encrypt_evidence at henc
    rw [hs] at henc
    exact Option.noConfusion henc
  | some enc =>
    exact ⟨enc, rfl, decrypt_encrypt cfg (.obj kvs) market_id hwf enc henc⟩

/-- C3 witness: a concrete one-entry evidence mapping with no
`tee_attestation` key encrypts and decrypts back to itself. -/
theorem C3_encrypt_decrypt_roundtrip_witness :
    ∃ enc, encrypt_evidence ⟨strOf "pkg", strOf "policy3", 2, [strOf "ks1"]⟩
        (.obj [(strOf "outcome", .str (strOf "YES"))]) (strOf "market3") = some enc ∧
      decrypt_evidence ⟨strOf "pkg", strOf "policy3", 2, [strOf "ks1"]⟩ enc.encrypted_blob
        (strOf "market3") = .ok (.obj [(strOf "outcome", .str (strOf "YES"))]) :=
  C3_encrypt_decrypt_roundtrip ⟨strOf "pkg", strOf "policy3", 2, [strOf "ks1"]⟩
    [(strOf "outcome", .str (strOf "YES"))] [] (strOf "market3") (by decide) rfl

/-- C3 counterexample: the claim quantifies over every
JSON-representable evidence object, but on the well-formed evidence
whose `tee_attestation` holds a string, `encrypt_evidence` raises
(`AttributeError` inside `_create_public_summary`) before any blob
exists, so the promised round trip fails for this evidence. -/
theorem C3_encrypt_crash_counterexample :
    wfJ (.obj [(strOf "tee_attestation", .str (strOf "sig"))]) = true ∧
    encrypt_evidence ⟨strOf "pkg", strOf "policy3", 2, []⟩
      (.obj [(strOf "tee_attestation", .str (strOf "sig"))]) (strOf "market3") = none :=
  ⟨by decide, rfl⟩

/-- C7 (amended) — decryption is not policy-gated: `decrypt_evidence`
takes no key material and performs no threshold check; its only gate is
the `SEAL_ENC_V1:` format tag. A blob without the tag fails with the
`ValueError` (invalid format), and every blob `encrypt_evidence`
produces decrypts to the full plaintext evidence for any caller holding
only the configuration and market id — no `EncryptionPolicyViolation`
failure mode exists in the method. -/
theorem C7_decrypt_not_policy_gated :
    (∀ (cfg : SealConfig) (blob market_id : List Nat),
      startsWithL (strOf "SEAL_ENC_V1:") blob = false →
      decrypt_evidence cfg blob market_id = .error .invalidFormat) ∧
    (∀ (cfg : SealConfig) (E : Json) (market_id : List Nat), wfJ E = true →
      ∀ enc, encrypt_evidence cfg E market_id = some enc →
        decrypt_evidence cfg enc.encrypted_blob market_id = .ok E) := by
  constructor
  · intro cfg blob market_id h
    simp [decrypt_evidence, h]
  · intro cfg E market_id hwf enc henc
    exact decrypt_encrypt cfg E market_id hwf enc henc

/-- C7 witness: a blob without the format tag is rejected as invalid,
and a concrete encrypted package decrypts to its plaintext with no key
material supplied. -/
theorem C7_decrypt_not_policy_gated_witness :
    decrypt_evidence ⟨strOf "p7", strOf "policy7", 1, []⟩ (strOf "BOGUS") (strOf "m7") =
      .error .invalidFormat ∧
    (encrypt_evidence ⟨strOf "p7", strOf "policy7", 1, []⟩ (.obj [(strOf "outcome", .num 1)])
        (strOf "m7")).map
      (fun enc => decrypt_evidence ⟨strOf "p7", strOf "policy7", 1, []⟩ enc.encrypted_blob
        (strOf "m7")) = some (.ok (.obj [(strOf "outcome", .num 1)])) := by
  refine ⟨C7_decrypt_not_policy_gated.1 _ _ _ (by decide), ?_⟩
  cases henc : encrypt_evidence ⟨strOf "p7", strOf "policy7", 1, []⟩
      (.obj [(strOf "outcome", .num 1)]) (strOf "m7") with
  | none =>
    exfalso
    rw [show encrypt_evidence ⟨strOf "p7", strOf "policy7", 1, []⟩
      (.obj [(strOf "outcome", .num 1)]) (strOf "m7") =
      encrypt_evidence ⟨strOf "p7", strOf "policy7", 1, []⟩
        (.obj [(strOf "outcome", .num 1)]) (strOf "m7") from rfl] at henc
    unfold encrypt_evidence at henc
    rw [show create_public_summary (.obj [(strOf "outcome", .num 1)]) (strOf "m7") =
      some (.obj
        [(strOf "market_id", .str (strOf "m7")),
         (strOf "outcome", .num 1),
         (strOf "resolution_date", .null),
         (strOf "oracle_version", .str (strOf "1.0")),
         (strOf "evidence_type", .str (strOf "public_summary")),
         (strOf "premium_available", .bool true),
         (strOf "message",
           .str (strOf "Full reasoning and sources available for premium subscribers"))])
      from rfl] at henc
    exact Option.noConfusion henc
  | some enc =>
    exact congrArg some (C7_decrypt_not_policy_gated.2 ⟨strOf "p7", strOf "policy7", 1, []⟩
      (.obj [(strOf "outcome", .num 1)]) (strOf "m7") (by decide) enc henc)

/-- C7 counterexample: a complete concrete run refuting the gate the
claim describes — with no key material anywhere, decryption of an
encrypted package returns the full plaintext instead of failing with a
policy violation. -/
theorem C7_decrypt_without_keys_counterexample :
    (encrypt_evidence ⟨strOf "pkg7", strOf "pol7", 3, []⟩
        (.obj [(strOf "outcome", .str (strOf "NO"))]) (strOf "mkt7")).map
      (fun enc => decrypt_evidence ⟨strOf "pkg7", strOf "pol7", 3, []⟩ enc.encrypted_blob
        (strOf "mkt7")) = some (.ok (.obj [(strOf "outcome", .str (strOf "NO"))])) := rfl

end Walmarket